import Mathlib

/-!
Verification of the ro-agent core against its specification.

Python strings are modelled as `List Char`; Python dicts appearing in the
modelled code are association lists.  All definitions in this file are
translated from the repository's source (`ro_agent/core/agent.py`,
`ro_agent/core/session.py`, `ro_agent/tools/registry.py`,
`ro_agent/tools/handlers/{bash,database,edit,write}.py`); comments on each
definition name the Python function it embeds.  Character-class functions
(`lower`, whitespace, word characters) are modelled at ASCII fidelity.
-/

namespace RoAgent

/-- Characters of a Lean string literal; Python `str` values are `List Char`. -/
def chars (s : String) : List Char := s.data

/-- Python whitespace for `str.split()` / `str.strip()` (ASCII range). -/
def pyIsSpace (c : Char) : Bool :=
  c = ' ' || c = '\t' || c = '\n' || c = '\x0d' || c = '\x0b' || c = '\x0c'

/-- Python `str.strip()`: drop whitespace from both ends. -/
def pyStrip (s : List Char) : List Char :=
  ((s.dropWhile pyIsSpace).reverse.dropWhile pyIsSpace).reverse

/-- Python `str.lower()` (ASCII fidelity). -/
def pyLower (s : List Char) : List Char := s.map Char.toLower

/-- Python `str.split()` with no argument: split on whitespace runs, no empty
parts. -/
def pySplitWs (s : List Char) : List (List Char) :=
  let step : Char → (List Char × List (List Char)) → (List Char × List (List Char)) :=
    fun c acc =>
      if pyIsSpace c then ([], if acc.1 = [] then acc.2 else acc.1 :: acc.2)
      else (c :: acc.1, acc.2)
  let r := s.foldr step ([], [])
  if r.1 = [] then r.2 else r.1 :: r.2

/-- Auxiliary for `pyCount`: non-overlapping occurrences of the nonempty
needle `s0 :: sub`, scanning left to right as Python `str.count` does.  The
`fuel` argument (instantiated to the haystack's length, which every scan
step consumes at least one unit of) makes the recursion structural so that
the definition evaluates by kernel reduction; the `0, _ :: _` case is
unreachable. -/
def countSubAux (s0 : Char) (sub : List Char) : Nat → List Char → Nat
  | _, [] => 0
  | 0, _ :: _ => 0
  | fuel + 1, c :: rest =>
    if (s0 :: sub).isPrefixOf (c :: rest) then
      countSubAux s0 sub fuel (rest.drop sub.length) + 1
    else
      countSubAux s0 sub fuel rest

/-- Python `str.count(sub)`: non-overlapping occurrences; for the empty
needle Python returns `len(hay) + 1`. -/
def pyCount (hay sub : List Char) : Nat :=
  match sub with
  | [] => hay.length + 1
  | s0 :: rest => countSubAux s0 rest hay.length hay

/-- Auxiliary for `pyReplace1`: replace the first occurrence of the nonempty
needle `s0 :: sub` by `repl`. -/
def replaceFirstAux (s0 : Char) (sub repl : List Char) : List Char → List Char
  | [] => []
  | c :: rest =>
    if (s0 :: sub).isPrefixOf (c :: rest) then
      repl ++ rest.drop sub.length
    else
      c :: replaceFirstAux s0 sub repl rest

/-- Python `str.replace(old, new, 1)`: replace the first occurrence only
(for the empty needle Python prepends `new`). -/
def pyReplace1 (hay sub repl : List Char) : List Char :=
  match sub with
  | [] => repl ++ hay
  | s0 :: rest => replaceFirstAux s0 rest repl hay

/-- Python `l[-n:]` for `n > 0` on a list: the last `n` elements. -/
def pyTakeLast (n : Nat) (l : List α) : List α := l.drop (l.length - n)

/-! ## `truncate_output` (agent.py lines 44-58) - claim C7 -/

/-- `MAX_TOOL_OUTPUT_CHARS` from agent.py. -/
def MAX_TOOL_OUTPUT_CHARS : Nat := 20000

/-- The elision marker inserted by `truncate_output`:
the Python f-string `"\n\n[... {elided} chars elided ...]\n\n"`. -/
def elisionMarker (elided : Nat) : List Char :=
  chars "\n\n[... " ++ (toString elided).data ++ chars " chars elided ...]\n\n"

/-- `truncate_output(content, max_chars)` from agent.py: head+tail truncation.
`content[:half]` is `take half`; `content[-half:]` is the last `half`
characters, except that Python `s[-0:]` is the whole string, reproduced by
the `half = 0` case. -/
def truncate_output (content : List Char) (maxChars : Nat) : List Char :=
  if content.length ≤ maxChars then content
  else
    let half := maxChars / 2
    let elided := content.length - maxChars
    let tail := if half = 0 then content else content.drop (content.length - half)
    content.take half ++ elisionMarker elided ++ tail

/-- Length of a once-truncated 20001-character string: 10000 + 28 + 10000. -/
theorem truncate_length_20001 (s : List Char) (h : s.length = 20001) :
    (truncate_output s MAX_TOOL_OUTPUT_CHARS).length = 20028 := by
  simp only [truncate_output, MAX_TOOL_OUTPUT_CHARS, h]
  rw [if_neg (by omega), if_neg (by norm_num : ¬((20000:Nat)/2 = 0))]
  have hm : (elisionMarker (20001 - 20000)).length = 28 := by decide
  simp only [List.length_append, List.length_take, List.length_drop, h, hm]
  omega

/-- Length of a twice-truncated 20001-character string: 10000 + 29 + 10000
(the elision marker now names 28 elided characters, a two-digit count). -/
theorem truncate_length_20028 (s : List Char) (h : s.length = 20028) :
    (truncate_output s MAX_TOOL_OUTPUT_CHARS).length = 20029 := by
  simp only [truncate_output, MAX_TOOL_OUTPUT_CHARS, h]
  rw [if_neg (by omega), if_neg (by norm_num : ¬((20000:Nat)/2 = 0))]
  have hm : (elisionMarker (20028 - 20000)).length = 29 := by decide
  simp only [List.length_append, List.length_take, List.length_drop, h, hm]
  omega

/-- C7 counterexample: `truncate_output` is NOT idempotent.  On a
20001-character input the first truncation produces a 20028-character string
(20000 characters plus the 28-character elision marker), which exceeds
`MAX_TOOL_OUTPUT_CHARS` and is therefore truncated again, giving a different
(20029-character) string. -/
theorem truncate_output_not_idempotent :
    truncate_output
        (truncate_output (List.replicate 20001 'a') MAX_TOOL_OUTPUT_CHARS)
        MAX_TOOL_OUTPUT_CHARS
      ≠ truncate_output (List.replicate 20001 'a') MAX_TOOL_OUTPUT_CHARS := by
  intro he
  have h1 : ((List.replicate 20001 'a') : List Char).length = 20001 :=
    List.length_replicate 20001 'a' 
  have h2 := truncate_length_20001 _ h1
  have h3 := truncate_length_20028 _ h2
  rw [he, h2] at h3
  norm_num at h3

/-- C7 (amended): `truncate_output` is the identity on every string of
length at most `MAX_TOOL_OUTPUT_CHARS` (and hence idempotent on such
strings); for every longer string it returns the first `N/2` characters,
the literal elision marker naming the number of elided characters, and the
last `N/2` characters.  Global idempotence fails (see the counterexample):
the truncated form of a longer string again exceeds the limit. -/
theorem truncate_output_spec (s : List Char) :
    (s.length ≤ MAX_TOOL_OUTPUT_CHARS → truncate_output s MAX_TOOL_OUTPUT_CHARS = s) ∧
    (s.length ≤ MAX_TOOL_OUTPUT_CHARS →
      truncate_output (truncate_output s MAX_TOOL_OUTPUT_CHARS) MAX_TOOL_OUTPUT_CHARS
        = truncate_output s MAX_TOOL_OUTPUT_CHARS) ∧
    (MAX_TOOL_OUTPUT_CHARS < s.length →
      truncate_output s MAX_TOOL_OUTPUT_CHARS =
        s.take (MAX_TOOL_OUTPUT_CHARS / 2)
          ++ elisionMarker (s.length - MAX_TOOL_OUTPUT_CHARS)
          ++ pyTakeLast (MAX_TOOL_OUTPUT_CHARS / 2) s) := by
  have hid : s.length ≤ MAX_TOOL_OUTPUT_CHARS →
      truncate_output s MAX_TOOL_OUTPUT_CHARS = s := by
    intro h
    simp only [truncate_output, if_pos h]
  refine ⟨hid, fun h => ?_, fun h => ?_⟩
  · rw [hid h, hid h]
  · simp only [truncate_output, if_neg (not_le.mpr h),
      if_neg (by norm_num [MAX_TOOL_OUTPUT_CHARS] : ¬(MAX_TOOL_OUTPUT_CHARS/2 = 0)),
      pyTakeLast]

/-- Witness for C7: the theorem applied at a short string and at a
20001-character string. -/
theorem truncate_output_spec_witness :
    truncate_output (chars "abc") MAX_TOOL_OUTPUT_CHARS = chars "abc" ∧
    truncate_output (List.replicate 20001 'a') MAX_TOOL_OUTPUT_CHARS =
      (List.replicate 20001 'a').take (MAX_TOOL_OUTPUT_CHARS / 2)
        ++ elisionMarker ((List.replicate 20001 'a').length - MAX_TOOL_OUTPUT_CHARS)
        ++ pyTakeLast (MAX_TOOL_OUTPUT_CHARS / 2) (List.replicate 20001 'a') :=
  ⟨(truncate_output_spec (chars "abc")).1 (by decide),
   (truncate_output_spec (List.replicate 20001 'a')).2.2
     (by rw [List.length_replicate]; norm_num [MAX_TOOL_OUTPUT_CHARS])⟩

/-! ## Restricted shell policy (bash.py lines 17-191) - claim C4 -/

/-- `ALLOWED_COMMANDS` from bash.py: the allowlist of base commands in
RESTRICTED mode. -/
def ALLOWED_COMMANDS : List (List Char) :=
  [chars "cat", chars "head", chars "tail", chars "less", chars "more",
   chars "grep", chars "rg", chars "ag", chars "ack", chars "find",
   chars "locate", chars "which", chars "whereis",
   chars "ls", chars "tree", chars "du", chars "df",
   chars "file", chars "stat", chars "wc", chars "md5", chars "sha256sum",
   chars "shasum",
   chars "awk", chars "sed", chars "cut", chars "sort", chars "uniq",
   chars "tr", chars "column", chars "fmt", chars "fold", chars "nl",
   chars "pr", chars "expand", chars "unexpand",
   chars "jq", chars "yq", chars "xmllint",
   chars "tar", chars "unzip", chars "zipinfo", chars "zcat", chars "zless",
   chars "zgrep", chars "gzip", chars "gunzip",
   chars "pwd", chars "whoami", chars "hostname", chars "uname", chars "env",
   chars "printenv", chars "date", chars "uptime", chars "ps", chars "top",
   chars "free",
   chars "ping", chars "curl", chars "wget", chars "dig", chars "nslookup",
   chars "host", chars "netstat", chars "ss",
   chars "git",
   chars "echo", chars "printf", chars "diff", chars "cmp", chars "comm",
   chars "hexdump", chars "xxd", chars "od", chars "strings"]

/-- `DANGEROUS_PATTERNS` from bash.py: substrings that reject the whole
command string in RESTRICTED mode. -/
def DANGEROUS_PATTERNS : List (List Char) :=
  [chars ">", chars ">>", chars "rm ", chars "rm\t", chars "rmdir",
   chars "mv ", chars "mv\t", chars "cp ", chars "cp\t",
   chars "chmod", chars "chown", chars "chgrp", chars "mkdir", chars "touch",
   chars "truncate", chars "shred", chars "dd ", chars "dd\t", chars "mkfs",
   chars "mount", chars "umount", chars "kill", chars "pkill", chars "killall",
   chars "reboot", chars "shutdown", chars "halt", chars "poweroff",
   chars "systemctl", chars "service", chars "apt", chars "yum", chars "dnf",
   chars "brew ", chars "pip ", chars "npm ", chars "yarn ", chars "cargo ",
   chars "sudo", chars "su ", chars "su\t", chars "doas"]

/-- Python substring containment `sub in hay`, via Mathlib's decidable
infix instance. -/
def containsSub (hay sub : List Char) : Bool := decide (sub <:+: hay)

/-- Prefix of a list before the first occurrence of the (nonempty) separator
`sep`; the whole list when `sep` does not occur.  This is Python
`s.split(sep)[0]`. -/
def takeUntilSub (sep : List Char) : List Char → List Char
  | [] => []
  | c :: rest =>
    if sep.isPrefixOf (c :: rest) then [] else c :: takeUntilSub sep rest

/-- `extract_base_command(command)` from bash.py: take the segment before the
first `|`, then before the first `&&`, `;`, `||` (each split only applied,
with a strip, when the separator occurs, exactly as in the source); split on
whitespace; return the first token with no `=` in it, else the first token,
else None. -/
def extract_base_command (command : List Char) : Option (List Char) :=
  let c1 := if containsSub command (chars "|")
            then pyStrip (takeUntilSub (chars "|") command) else command
  let c2 := if containsSub c1 (chars "&&")
            then pyStrip (takeUntilSub (chars "&&") c1) else c1
  let c3 := if containsSub c2 (chars ";")
            then pyStrip (takeUntilSub (chars ";") c2) else c2
  let c4 := if containsSub c3 (chars "||")
            then pyStrip (takeUntilSub (chars "||") c3) else c3
  let parts := pySplitWs c4
  match parts.find? (fun part => !(part.contains '=')) with
  | some part => some part
  | none => parts.head?

/-- `is_command_allowed(command)` from bash.py.  The Python `if not base_cmd`
covers both `None` and the empty string. -/
def is_command_allowed (command : List Char) : Bool × List Char :=
  match DANGEROUS_PATTERNS.find? (fun p => containsSub command p) with
  | some p => (false, chars "Command contains dangerous pattern: " ++ pyStrip p)
  | none =>
    match extract_base_command command with
    | none => (false, chars "Could not parse command")
    | some b =>
      if b = [] then (false, chars "Could not parse command")
      else if b ∈ ALLOWED_COMMANDS then (true, [])
      else (false, chars "Command '" ++ b ++ chars "' is not in the allowlist")

/-- Every entry of the allowlist is a nonempty string. -/
theorem allowed_commands_nonempty : ∀ b ∈ ALLOWED_COMMANDS, b ≠ [] := by decide

/-- C4: `is_command_allowed(c)` returns `(true, "")` if and only if no
DANGEROUS_PATTERNS substring occurs in `c` and the base command extracted by
`extract_base_command` exists and is in ALLOWED_COMMANDS; in particular any
command containing a dangerous substring is rejected, and any command whose
base command is not in the allowlist is rejected. -/
theorem is_command_allowed_spec (c : List Char) :
    (is_command_allowed c = (true, []) ↔
      ((∀ p ∈ DANGEROUS_PATTERNS, ¬ containsSub c p) ∧
        ∃ b, extract_base_command c = some b ∧ b ∈ ALLOWED_COMMANDS)) ∧
    (∀ p ∈ DANGEROUS_PATTERNS, containsSub c p → (is_command_allowed c).1 = false) ∧
    (∀ b, extract_base_command c = some b → b ∉ ALLOWED_COMMANDS →
      (is_command_allowed c).1 = false) := by
  unfold is_command_allowed
  cases hf : DANGEROUS_PATTERNS.find? (fun p => containsSub c p) with
  | some p =>
    dsimp only
    have hp := List.find?_some hf
    have hpmem := List.mem_of_find?_eq_some hf
    exact ⟨⟨fun h => by simp at h, fun h => absurd hp (by simpa using h.1 p hpmem)⟩,
      fun q hq hqc => rfl, fun b hb hnb => rfl⟩
  | none =>
    have hnone : ∀ p ∈ DANGEROUS_PATTERNS, ¬ containsSub c p := fun p hp => by
      simpa using List.find?_eq_none.mp hf p hp
    cases hx : extract_base_command c with
    | none =>
      dsimp only
      exact ⟨⟨fun h => by simp at h, fun h => Option.noConfusion h.2.choose_spec.1⟩,
        fun q hq hqc => absurd hqc (hnone q hq),
        fun b hb hnb => Option.noConfusion hb⟩
    | some b =>
      dsimp only
      by_cases hbe : b = []
      · rw [if_pos hbe]
        refine ⟨⟨fun h => by simp at h, fun h => ?_⟩,
          fun q hq hqc => absurd hqc (hnone q hq),
          fun b2 hb2 hnb2 => rfl⟩
        obtain ⟨b2, hb2, hmem⟩ := h.2
        cases hb2
        exact absurd hbe (allowed_commands_nonempty _ hmem)
      · rw [if_neg hbe]
        by_cases hmem : b ∈ ALLOWED_COMMANDS
        · rw [if_pos hmem]
          refine ⟨⟨fun _ => ⟨hnone, b, rfl, hmem⟩, fun _ => rfl⟩,
            fun q hq hqc => absurd hqc (hnone q hq),
            fun b2 hb2 hnb2 => ?_⟩
          cases hb2
          exact absurd hmem hnb2
        · rw [if_neg hmem]
          refine ⟨⟨fun h => by simp at h, fun h => ?_⟩,
            fun q hq hqc => absurd hqc (hnone q hq),
            fun b2 hb2 hnb2 => rfl⟩
          obtain ⟨b2, hb2, hmem2⟩ := h.2
          cases hb2
          exact absurd hmem2 hmem

/-- Witness for C4: a dangerous command is rejected, a non-allowlisted base
command is rejected, and a plain allowlisted command is accepted. -/
theorem is_command_allowed_spec_witness :
    (is_command_allowed (chars "rm -rf /tmp/x")).1 = false ∧
    (is_command_allowed (chars "python3 script.py")).1 = false ∧
    is_command_allowed (chars "cat notes.txt") = (true, []) :=
  ⟨(is_command_allowed_spec (chars "rm -rf /tmp/x")).2.1 (chars "rm ")
      (by decide) (by decide),
   (is_command_allowed_spec (chars "python3 script.py")).2.2 (chars "python3")
      (by decide) (by decide),
   (is_command_allowed_spec (chars "cat notes.txt")).1.mpr (by decide)⟩

/-! ## JSON-like values and the tool contract (tools/base.py) -/

/-- JSON-like Python values appearing as tool arguments and metadata
(`json.loads` results).  Floating-point values are outside this embedding:
no claim in this development involves Python floats, and their numeric
semantics is not statable here.  `bool` is a separate constructor, but the
Python `isinstance(value, int)` check (which is true for `bool`) is modelled
explicitly where it occurs. -/
inductive JValue where
  | str (s : List Char)
  | bool (b : Bool)
  | int (n : Int)
  | null
  | list (xs : List JValue)
  | dict (entries : List (List Char × JValue))

/-- `ToolOutput` from tools/base.py: `{content, success, metadata}` with
metadata an association list (the Python dict defaults to `{}`). -/
structure ToolOutput where
  content : List Char
  success : Bool
  metadata : List (List Char × JValue)

/-! ## Read-only SQL guard (database.py lines 10-43 and 223-252) - claim C3 -/

/-- The keywords inside `MUTATION_PATTERNS` from database.py (each wrapped
as `\bKW\b` in the source regex). -/
def MUTATION_KEYWORDS : List (List Char) :=
  [chars "INSERT", chars "UPDATE", chars "DELETE", chars "DROP",
   chars "CREATE", chars "ALTER", chars "TRUNCATE", chars "MERGE",
   chars "GRANT", chars "REVOKE", chars "EXEC", chars "EXECUTE", chars "CALL"]

/-- Regex `\w` (word character) at ASCII fidelity, for `\b` boundaries. -/
def isWordChar (c : Char) : Bool := c.isAlpha || c.isDigit || c = '_'

/-- Split a character list on a separator character, keeping empty pieces,
as Python `str.split("\n")` does. -/
def splitOnChar (sep : Char) (s : List Char) : List (List Char) :=
  s.foldr
    (fun c acc =>
      match acc with
      | [] => [[]]
      | g :: gs => if c = sep then [] :: g :: gs else (c :: g) :: gs)
    [[]]

/-- `re.sub(r"--.*$", "", sql, flags=re.MULTILINE)`: on each line, drop
everything from the first `--` on. -/
def stripLineComments (s : List Char) : List Char :=
  List.intercalate (chars "\n")
    ((splitOnChar '\n' s).map (takeUntilSub (chars "--")))

/-- Remainder after the first `*/` (consuming it); `none` when `*/` does not
occur. -/
def dropPastClose : List Char → Option (List Char)
  | [] => none
  | c :: rest =>
    if (chars "*/").isPrefixOf (c :: rest) then some (rest.drop 1)
    else dropPastClose rest

theorem dropPastClose_length {l r : List Char} (h : dropPastClose l = some r) :
    r.length < l.length := by
  induction l with
  | nil => simp [dropPastClose] at h
  | cons c rest ih =>
    simp only [dropPastClose] at h
    split at h
    · cases h
      simp only [List.length_drop, List.length_cons]
      omega
    · have := ih h
      simp only [List.length_cons]
      omega

/-- Auxiliary for `stripBlockComments`, with structural fuel (instantiated
to the string's length; every step consumes at least one character, see
`dropPastClose_length`, so the `0, _ :: _` case is unreachable). -/
def stripBlockAux : Nat → List Char → List Char
  | _, [] => []
  | 0, s => s
  | fuel + 1, c :: rest =>
    if (chars "/*").isPrefixOf (c :: rest) then
      match dropPastClose (rest.drop 1) with
      | some rem => stripBlockAux fuel rem
      | none => c :: rest
    else c :: stripBlockAux fuel rest

/-- `re.sub(r"/\*.*?\*/", "", s, flags=re.DOTALL)`: remove each
non-greedy block comment left to right; a `/*` with no later `*/` is not a
match and is kept verbatim (and no later `/*` can match either). -/
def stripBlockComments (s : List Char) : List Char :=
  stripBlockAux s.length s

/-- The preprocessing in `is_read_only_sql`: strip `--` line comments, strip
`/* ... */` block comments, then `" ".join(cleaned.split())`. -/
def sqlCleaned (sql : List Char) : List Char :=
  List.intercalate (chars " ") (pySplitWs (stripBlockComments (stripLineComments sql)))

/-- `true` when the optional character is absent or not a word character:
the `\b` condition on one side of a keyword. -/
def noWordCharOpt : Option Char → Bool
  | none => true
  | some p => !isWordChar p

/-- One attempt of `MUTATION_RE` at a position: `\bKW\b` with IGNORECASE,
`prev` being the character just before the position.  Returns the matched
slice of the input (case preserved), as `match.group()` does. -/
def matchKeywordAt (prev : Option Char) (s kw : List Char) : Option (List Char) :=
  if pyLower (s.take kw.length) = pyLower kw ∧ kw.length ≤ s.length ∧
      noWordCharOpt prev ∧ noWordCharOpt (s.drop kw.length).head?
  then some (s.take kw.length) else none

/-- `MUTATION_RE.search`: scan positions left to right; at each position try
the alternatives in `MUTATION_PATTERNS` order. -/
def searchMutationAux (prev : Option Char) : List Char → Option (List Char)
  | [] => none
  | c :: rest =>
    match MUTATION_KEYWORDS.findSome? (fun kw => matchKeywordAt prev (c :: rest) kw) with
    | some m => some m
    | none => searchMutationAux (some c) rest

/-- `MUTATION_RE.search(cleaned)` from the start of the string. -/
def searchMutation (s : List Char) : Option (List Char) :=
  searchMutationAux none s

/-- `is_read_only_sql(sql)` from database.py. -/
def is_read_only_sql (sql : List Char) : Bool × List Char :=
  match searchMutation (sqlCleaned sql) with
  | some m => (false, chars "Query contains mutation keyword: " ++ m)
  | none => (true, [])

/-- `str(val) if val is not None else "NULL"`: a result cell is either SQL
NULL or an opaque value whose Python `str()` rendering the backend
determines; cells are therefore modelled as `Option (List Char)` carrying
that rendering. -/
def cellStr (v : Option (List Char)) : List Char := v.getD (chars "NULL")

/-- Python `s.ljust(w)[:w]`. -/
def ljustTrunc (s : List Char) (w : Nat) : List Char :=
  (s ++ List.replicate (w - s.length) ' ').take w

/-- The inner loop of the width computation in `format_rows`: update the
per-column widths from one row (Python indexes `widths[i]` for each cell of
the row; a row longer than `columns` would raise in Python and is outside
the model). -/
def updWidths : List Nat → List (Option (List Char)) → List Nat
  | ws, [] => ws
  | [], _ => []
  | w :: ws, v :: vs => max w (cellStr v).length :: updWidths ws vs

/-- `format_rows(columns, rows, max_rows)` from database.py. -/
def format_rows (columns : List (List Char))
    (rows : List (List (Option (List Char)))) (maxRows : Nat) : List Char :=
  if rows = [] then chars "(no rows returned)"
  else
    let widths0 := columns.map List.length
    let widths1 := (rows.take maxRows).foldl updWidths widths0
    let widths := widths1.map (fun w => min w 50)
    let header := List.intercalate (chars " | ")
      (List.zipWith (fun col w => ljustTrunc col w) columns widths)
    let separator := List.intercalate (chars "-+-")
      (widths.map (fun w => List.replicate w '-'))
    let rowLines := (rows.take maxRows).map (fun row =>
      List.intercalate (chars " | ")
        (List.zipWith (fun v w => ljustTrunc (cellStr v) w) row widths))
    let lines := header :: separator :: rowLines ++
      (if maxRows < rows.length then
        [chars "... (" ++ (toString (rows.length - maxRows)).data ++ chars " more rows)"]
      else [])
    List.intercalate (chars "\n") lines

/-- The backend result of `_execute_query`: column names and rows. -/
structure QueryResult where
  columns : List (List Char)
  rows : List (List (Option (List Char)))

/-- `DatabaseHandler._handle_query` from database.py.  `exec` stands for the
abstract `_execute_query`; the second component of the result collects the
SQL strings that reached the backend (so "the SQL was not executed" is
`trace = []`). -/
def handle_query (exec : List Char → QueryResult) (rowLimit : Nat)
    (sql : List Char) : ToolOutput × List (List Char) :=
  if sql = [] then (⟨chars "No SQL query provided", false, []⟩, [])
  else
    let r := is_read_only_sql sql
    if r.1 = false then
      (⟨chars "Query blocked: " ++ r.2, false, []⟩, [])
    else
      let q := exec sql
      if q.columns = [] then
        (⟨chars "Query executed (no result set)", true, []⟩, [sql])
      else
        let rows := q.rows.take (rowLimit + 1)
        (⟨format_rows q.columns rows rowLimit, true,
          [(chars "columns", JValue.list (q.columns.map JValue.str)),
           (chars "row_count", JValue.int (min rows.length rowLimit)),
           (chars "truncated", JValue.bool (decide (rowLimit < rows.length)))]⟩,
         [sql])

/-- The character preceding the scan position: `prev` when nothing has been
consumed yet, else the last consumed character. -/
def prevOf (prev : Option Char) : List Char → Option Char
  | [] => prev
  | c :: rest => prevOf (some c) rest

/-- The claim-side predicate: `s` contains some mutation keyword as a whole
word, case-insensitively - there is a decomposition `pre ++ mid ++ post`
where `mid` equals a keyword up to case and the adjacent characters (when
present) are not word characters. -/
def HasMutationKeyword (s : List Char) : Prop :=
  ∃ pre mid post kw, kw ∈ MUTATION_KEYWORDS ∧ s = pre ++ mid ++ post ∧
    pyLower mid = pyLower kw ∧
    noWordCharOpt pre.getLast? ∧ noWordCharOpt post.head?

theorem mutation_keywords_ne_nil : ∀ kw ∈ MUTATION_KEYWORDS, kw ≠ [] := by decide

theorem matchKeywordAt_isSome_iff (prev : Option Char) (b kw : List Char) :
    (matchKeywordAt prev b kw).isSome ↔
      ∃ mid post, b = mid ++ post ∧ pyLower mid = pyLower kw ∧
        noWordCharOpt prev ∧ noWordCharOpt post.head? := by
  unfold matchKeywordAt
  split
  case isTrue h =>
    obtain ⟨h1, h2, h3, h4⟩ := h
    simp only [Option.isSome_some, true_iff]
    exact ⟨b.take kw.length, b.drop kw.length, (List.take_append_drop _ b).symm,
      h1, h3, h4⟩
  case isFalse h =>
    simp only [Option.isSome_none, Bool.false_eq_true, false_iff]
    rintro ⟨mid, post, rfl, hl, hp, hq⟩
    apply h
    have hlen : mid.length = kw.length := by
      have := congrArg List.length hl
      simpa [pyLower] using this
    refine ⟨?_, ?_, hp, ?_⟩
    · rw [← hlen, List.take_left]
      exact hl
    · rw [List.length_append, ← hlen]
      omega
    · rw [← hlen, List.drop_left]
      exact hq

theorem searchMutationAux_isSome_iff (suf : List Char) : ∀ prev,
    (searchMutationAux prev suf).isSome ↔
      ∃ a b, suf = a ++ b ∧
        ∃ kw ∈ MUTATION_KEYWORDS, (matchKeywordAt (prevOf prev a) b kw).isSome := by
  induction suf with
  | nil =>
    intro prev
    simp only [searchMutationAux, Option.isSome_none, Bool.false_eq_true, false_iff]
    rintro ⟨a, b, hab, kw, hmem, hsome⟩
    have hb : b = [] := by
      have := congrArg List.length hab
      simp only [List.length_append, List.length_nil] at this
      exact List.length_eq_zero.mp (by omega)
    subst hb
    rw [matchKeywordAt_isSome_iff] at hsome
    obtain ⟨mid, post, hmp, hl, _, _⟩ := hsome
    have hmid : mid = [] := by
      have := congrArg List.length hmp
      simp only [List.length_append, List.length_nil] at this
      exact List.length_eq_zero.mp (by omega)
    subst hmid
    have : kw.length = 0 := by
      have := congrArg List.length hl
      simpa [pyLower] using this.symm
    exact mutation_keywords_ne_nil kw hmem (List.length_eq_zero.mp this)
  | cons c rest ih =>
    intro prev
    simp only [searchMutationAux]
    cases hfs : MUTATION_KEYWORDS.findSome? (fun kw => matchKeywordAt prev (c :: rest) kw) with
    | some m =>
      simp only [Option.isSome_some, true_iff]
      obtain ⟨kw, hkmem, hkw⟩ := List.exists_of_findSome?_eq_some hfs
      exact ⟨[], c :: rest, rfl, kw, hkmem, by rw [show prevOf prev [] = prev from rfl, hkw]; rfl⟩
    | none =>
      rw [ih (some c)]
      constructor
      · rintro ⟨a, b, rfl, kw, hmem, hsome⟩
        exact ⟨c :: a, b, rfl, kw, hmem, hsome⟩
      · rintro ⟨a, b, hab, kw, hmem, hsome⟩
        cases a with
        | nil =>
          simp only [List.nil_append] at hab
          subst hab
          rw [List.findSome?_eq_none_iff] at hfs
          rw [show prevOf prev [] = prev from rfl, hfs kw hmem] at hsome
          simp at hsome
        | cons c0 a0 =>
          injection hab with h1 h2
          subst h1
          exact ⟨a0, b, h2, kw, hmem, hsome⟩

theorem prevOf_none_eq_getLast? (a : List Char) : prevOf none a = a.getLast? := by
  suffices h : ∀ (a : List Char) (c : Char) (prev : Option Char),
      prevOf prev (c :: a) = (c :: a).getLast? by
    cases a with
    | nil => rfl
    | cons c a0 => exact h a0 c none
  intro a
  induction a with
  | nil => intro c prev; rfl
  | cons c1 a1 ih =>
    intro c prev
    show prevOf (some c) (c1 :: a1) = (c :: c1 :: a1).getLast?
    rw [ih c1 (some c)]
    rfl

/-- `MUTATION_RE.search` finds a match exactly when the string contains some
mutation keyword as a case-insensitive whole word. -/
theorem searchMutation_isSome_iff (s : List Char) :
    (searchMutation s).isSome ↔ HasMutationKeyword s := by
  unfold searchMutation
  rw [searchMutationAux_isSome_iff s none]
  constructor
  · rintro ⟨a, b, rfl, kw, hmem, hsome⟩
    rw [prevOf_none_eq_getLast?] at hsome
    rw [matchKeywordAt_isSome_iff] at hsome
    obtain ⟨mid, post, rfl, hl, hp, hq⟩ := hsome
    exact ⟨a, mid, post, kw, hmem, by rw [List.append_assoc], hl, hp, hq⟩
  · rintro ⟨pre, mid, post, kw, hmem, rfl, hl, hp, hq⟩
    refine ⟨pre, mid ++ post, by rw [List.append_assoc], kw, hmem, ?_⟩
    rw [prevOf_none_eq_getLast?, matchKeywordAt_isSome_iff]
    exact ⟨mid, post, rfl, hl, hp, hq⟩

/-- C3: for every SQL string whose comment-stripped, whitespace-collapsed
form contains a mutation keyword as a case-insensitive whole word,
`is_read_only_sql` returns `(false, "Query contains mutation keyword: <kw>")`
and the read-only query operation returns the failed ToolOutput
`"Query blocked: Query contains mutation keyword: <kw>"` with no SQL reaching
the backend; for every SQL string with no such keyword it returns
`(true, "")`. -/
theorem is_read_only_sql_spec (sql : List Char)
    (exec : List Char → QueryResult) (rowLimit : Nat) :
    (HasMutationKeyword (sqlCleaned sql) →
      ∃ kw, is_read_only_sql sql =
          (false, chars "Query contains mutation keyword: " ++ kw) ∧
        handle_query exec rowLimit sql =
          (⟨chars "Query blocked: Query contains mutation keyword: " ++ kw,
            false, []⟩, [])) ∧
    (¬ HasMutationKeyword (sqlCleaned sql) → is_read_only_sql sql = (true, [])) := by
  constructor
  · intro h
    have hsome := (searchMutation_isSome_iff (sqlCleaned sql)).mpr h
    obtain ⟨m, hm⟩ := Option.isSome_iff_exists.mp hsome
    have hr : is_read_only_sql sql =
        (false, chars "Query contains mutation keyword: " ++ m) := by
      unfold is_read_only_sql
      rw [hm]
    refine ⟨m, hr, ?_⟩
    have hne : sql ≠ [] := by
      intro he
      subst he
      rw [show sqlCleaned [] = [] from rfl] at hm
      simp [searchMutation, searchMutationAux] at hm
    unfold handle_query
    rw [if_neg hne]
    simp only [hr, if_pos rfl]
    refine congrArg (fun c => ((⟨c, false, []⟩ : ToolOutput), ([] : List (List Char)))) ?_
    rw [← List.append_assoc]
    rfl
  · intro h
    cases hm : searchMutation (sqlCleaned sql) with
    | some m =>
      exact absurd ((searchMutation_isSome_iff _).mp (by rw [hm]; rfl)) h
    | none =>
      unfold is_read_only_sql
      rw [hm]

/-- Witness for C3: a lowercase `delete` statement is blocked without
reaching the backend, exercising IGNORECASE and the case-preserving matched
text. -/
theorem is_read_only_sql_spec_witness :
    ∃ kw, is_read_only_sql (chars "delete from t") =
        (false, chars "Query contains mutation keyword: " ++ kw) ∧
      handle_query (fun _ => ⟨[], []⟩) 100 (chars "delete from t") =
        (⟨chars "Query blocked: Query contains mutation keyword: " ++ kw,
          false, []⟩, []) :=
  (is_read_only_sql_spec (chars "delete from t") (fun _ => ⟨[], []⟩) 100).1
    ⟨[], chars "delete", chars " from t", chars "DELETE", by decide, by decide,
      by decide, by decide, by decide⟩

/-! ## Edit tool (edit.py lines 76-227) - claim C2 -/

/-- `EditHandler._normalize_whitespace`: strip trailing whitespace from each
line (Python `rstrip()` strips the same whitespace set as `strip()`). -/
def normalize_whitespace (s : List Char) : List Char :=
  List.intercalate (chars "\n")
    ((splitOnChar '\n' s).map (fun line => (line.reverse.dropWhile pyIsSpace).reverse))

/-- `EditHandler._normalize_indentation`: strip leading whitespace from each
line. -/
def normalize_indentation (s : List Char) : List Char :=
  List.intercalate (chars "\n")
    ((splitOnChar '\n' s).map (fun line => line.dropWhile pyIsSpace))

/-- `"\n".join(lines[i : i + n])`: the sliding window of `n` lines at `i`. -/
def windowAt (lines : List (List Char)) (i n : Nat) : List Char :=
  List.intercalate (chars "\n") ((lines.drop i).take n)

/-- The matching windows of one sliding-window strategy of `_apply_edit`:
the window texts at each `i` in `range(len(lines) - len(old_lines) + 1)`
whose normal form equals that of `old_string` (the source collects
`(i, window)` pairs; only the window text is used afterwards). -/
def matchingWindows (norm : List Char → List Char)
    (content old_string : List Char) : List (List Char) :=
  let lines := splitOnChar '\n' content
  let oldLines := splitOnChar '\n' old_string
  (List.range (lines.length + 1 - oldLines.length)).filterMap (fun i =>
    let w := windowAt lines i oldLines.length
    if norm w = norm old_string then some w else none)

/-- `EditHandler._reindent(new_string, matched)`: re-indent `new_string` to
the matched window's base indentation, preserving relative indentation.
Python's `min_new_indent` starts at float infinity and falls back to `0`
when every line is blank; `minimum?.getD 0` reproduces that. -/
def reindent (new_string matched : List Char) : List Char :=
  let matchedLines := splitOnChar '\n' matched
  let newLines := splitOnChar '\n' new_string
  if matchedLines = [] ∨ newLines = [] then new_string
  else
    let baseIndent := (matchedLines.headD []).takeWhile pyIsSpace
    let minNewIndent :=
      (((newLines.filter (fun l => l.any (fun c => !pyIsSpace c))).map
          (fun l => (l.takeWhile pyIsSpace).length)).min?).getD 0
    let res := newLines.map (fun line =>
      if line.any (fun c => !pyIsSpace c) then
        baseIndent ++ List.replicate ((line.takeWhile pyIsSpace).length - minNewIndent) ' '
          ++ line.dropWhile pyIsSpace
      else line)
    List.intercalate (chars "\n") res

/-- `EditHandler._apply_edit(content, old_string, new_string)` from edit.py:
exact count, then whitespace-normalized windows, then indentation-flexible
windows; `none` in the first component means failure (no write). -/
def apply_edit (content old_string new_string : List Char) :
    Option (List Char) × List Char :=
  let count := pyCount content old_string
  if count = 1 then
    (some (pyReplace1 content old_string new_string), chars "exact match")
  else if 1 < count then
    (none, chars "old_string appears " ++ (toString count).data ++
      chars " times (must be unique). Add more context.")
  else
    let ws := matchingWindows normalize_whitespace content old_string
    if ws.length = 1 then
      (some (pyReplace1 content (ws.headD []) new_string),
       chars "whitespace-normalized match")
    else if 1 < ws.length then
      (none, chars "Found " ++ (toString ws.length).data ++
        chars " whitespace-normalized matches (must be unique)")
    else
      let iw := matchingWindows normalize_indentation content old_string
      if iw.length = 1 then
        (some (pyReplace1 content (iw.headD [])
          (reindent new_string (iw.headD []))),
         chars "indentation-flexible match")
      else if 1 < iw.length then
        (none, chars "Found " ++ (toString iw.length).data ++
          chars " indentation-flexible matches (must be unique)")
      else
        (none,
         chars "old_string not found in file. Check for typos or add more context.")

/-- `EditHandler.handle` at the file-content level.  Path resolution and
file I/O are environmental: `path` is the resolved path string and `content`
the file's text.  The result's second component is the content written to
the file (`none`: the file is left unchanged). -/
def edit_handle (path content old_string new_string : List Char) :
    ToolOutput × Option (List Char) :=
  if path = [] then (⟨chars "No path provided", false, []⟩, none)
  else if old_string = [] then (⟨chars "No old_string provided", false, []⟩, none)
  else
    match apply_edit content old_string new_string with
    | (none, msg) => (⟨msg, false, []⟩, none)
    | (some newContent, msg) =>
      (⟨chars "Edited " ++ path ++ chars ": " ++ msg, true,
        [(chars "path", JValue.str path)]⟩, some newContent)

/-- The claim's decision predicate: the first strategy (in order
exact / whitespace-normalized / indentation-flexible) with any match has
exactly one match. -/
def editDecision (content old_string : List Char) : Prop :=
  pyCount content old_string = 1 ∨
  (pyCount content old_string = 0 ∧
    ((matchingWindows normalize_whitespace content old_string).length = 1 ∨
     ((matchingWindows normalize_whitespace content old_string).length = 0 ∧
      (matchingWindows normalize_indentation content old_string).length = 1)))

instance (content old_string : List Char) : Decidable (editDecision content old_string) := by
  unfold editDecision
  infer_instance

/-- C2 counterexample: with an empty `old_string` (and empty file) the exact
strategy counts exactly one occurrence, but `handle` rejects the call with
"No old_string provided" before trying any strategy, so the claimed
equivalence "modifies iff a strategy finds a unique match" fails. -/
theorem edit_handle_empty_old_counterexample :
    ¬(((edit_handle (chars "/tmp/f.txt") [] [] (chars "x")).2.isSome) ↔
      editDecision [] []) := by decide

/-- The first component of `_apply_edit` succeeds exactly when the in-order
unique-match decision holds. -/
theorem apply_edit_isSome_iff (content old_string new_string : List Char) :
    (apply_edit content old_string new_string).1.isSome ↔
      editDecision content old_string := by
  simp only [apply_edit]
  split_ifs with h1 h2 h3 h4 h5 h6 <;>
    simp only [Option.isSome_some, Option.isSome_none, Bool.false_eq_true,
      true_iff, false_iff, iff_true]
  · exact Or.inl h1
  · rintro (h | ⟨h0, _⟩)
    · exact absurd h h1
    · omega
  · exact Or.inr ⟨by omega, Or.inl h3⟩
  · rintro (h | ⟨h0, hw | ⟨hw0, _⟩⟩)
    · exact absurd h h1
    · exact absurd hw h3
    · omega
  · exact Or.inr ⟨by omega, Or.inr ⟨by omega, h5⟩⟩
  · rintro (h | ⟨h0, hw | ⟨hw0, hi⟩⟩)
    · exact absurd h h1
    · exact absurd hw h3
    · exact absurd hi h5
  · rintro (h | ⟨h0, hw | ⟨hw0, hi⟩⟩)
    · exact absurd h h1
    · exact absurd hw h3
    · exact absurd hi h5

/-- C2 (amended): for a nonempty `old_string` (and a nonempty path), the
edit tool writes the file if and only if the first strategy with any match
has exactly one match; whenever that fails (zero matches everywhere or more
than one at the deciding strategy) `handle` returns a failed ToolOutput and
the file is left unchanged. -/
theorem edit_handle_spec (path content old_string new_string : List Char)
    (hp : path ≠ []) (ho : old_string ≠ []) :
    ((edit_handle path content old_string new_string).2.isSome ↔
      editDecision content old_string) ∧
    (¬ editDecision content old_string →
      (edit_handle path content old_string new_string).1.success = false ∧
      (edit_handle path content old_string new_string).2 = none) := by
  have hiff := apply_edit_isSome_iff content old_string new_string
  have hh : edit_handle path content old_string new_string =
      match apply_edit content old_string new_string with
      | (none, msg) => (⟨msg, false, []⟩, none)
      | (some newContent, msg) =>
        (⟨chars "Edited " ++ path ++ chars ": " ++ msg, true,
          [(chars "path", JValue.str path)]⟩, some newContent) := by
    unfold edit_handle
    rw [if_neg hp, if_neg ho]
  cases hae : apply_edit content old_string new_string with
  | mk o msg =>
    rw [hae] at hh hiff
    cases o with
    | none =>
      rw [hh]
      refine ⟨?_, fun _ => ⟨rfl, rfl⟩⟩
      simp only [Option.isSome_none, Bool.false_eq_true, false_iff] at hiff ⊢
      exact hiff
    | some nc =>
      rw [hh]
      have hd : editDecision content old_string := by simpa using hiff
      refine ⟨?_, fun hnd => absurd hd hnd⟩
      simpa using hd

/-- Witness for C2: a unique exact match causes a write; an absent
`old_string` text causes a failed output with no write. -/
theorem edit_handle_spec_witness :
    ((edit_handle (chars "/tmp/f.txt") (chars "hello world") (chars "world")
        (chars "there")).2.isSome) ∧
    ((edit_handle (chars "/tmp/f.txt") (chars "hello") (chars "zzz")
        (chars "y")).1.success = false ∧
      (edit_handle (chars "/tmp/f.txt") (chars "hello") (chars "zzz")
        (chars "y")).2 = none) :=
  ⟨(edit_handle_spec (chars "/tmp/f.txt") (chars "hello world") (chars "world")
      (chars "there") (by decide) (by decide)).1.mpr (by decide),
   (edit_handle_spec (chars "/tmp/f.txt") (chars "hello") (chars "zzz")
      (chars "y") (by decide) (by decide)).2 (by decide)⟩

/-! ## Registry argument coercion (registry.py lines 9-38) - claim C8 -/

/-- Python dict lookup on an association list (keys are unique in a dict). -/
def lookupAssoc (l : List (List Char × α)) (k : List Char) : Option α :=
  match l.find? (fun e => e.1 = k) with
  | some e => some e.2
  | none => none

/-- `isinstance(value, bool)`. -/
def pyIsInstBool : JValue → Bool
  | .bool _ => true
  | _ => false

/-- `isinstance(value, int)` - true for Python bools as well, since `bool`
subclasses `int`. -/
def pyIsInstInt : JValue → Bool
  | .int _ => true
  | .bool _ => true
  | _ => false

/-- Python truthiness `bool(value)` over the embedded domain. -/
def pyBool : JValue → Bool
  | .str s => !s.isEmpty
  | .bool b => b
  | .int n => n != 0
  | .null => false
  | .list xs => !xs.isEmpty
  | .dict es => !es.isEmpty

/-- The strings `("true", "1", "yes")` from registry.py. -/
def pyBoolStrings : List (List Char) := [chars "true", chars "1", chars "yes"]

/-- Valid digits-with-underscores body for Python `int(str)`: nonempty, all
digits or `_`, starting and ending with a digit, no `__`. -/
def validUnderscoreDigits (l : List Char) : Bool :=
  !l.isEmpty && l.head?.all Char.isDigit && l.getLast?.all Char.isDigit &&
    l.all (fun c => c.isDigit || c = '_') && !containsSub l (chars "__")

/-- Numeric value of a digit string, ignoring underscores. -/
def digitsToNat (l : List Char) : Nat :=
  (l.filter Char.isDigit).foldl (fun acc c => acc * 10 + (c.toNat - '0'.toNat)) 0

/-- Python `int(s)` on a string: optional surrounding whitespace, optional
sign, digits with single underscores between digits (ASCII fidelity). -/
def pyIntOfString (s : List Char) : Option Int :=
  let t := pyStrip s
  match t with
  | '+' :: rest =>
    if validUnderscoreDigits rest then some (Int.ofNat (digitsToNat rest)) else none
  | '-' :: rest =>
    if validUnderscoreDigits rest then some (-(Int.ofNat (digitsToNat rest))) else none
  | _ => if validUnderscoreDigits t then some (Int.ofNat (digitsToNat t)) else none

/-- The `int(value)` attempt in the integer branch (only reached when the
value is not an int instance): strings parse decimally; `None`, lists and
dicts raise `TypeError` (`none` here). -/
def pyIntAttempt : JValue → Option Int
  | .str s => pyIntOfString s
  | .null => none
  | .list _ => none
  | .dict _ => none
  | .bool b => some (if b then 1 else 0)
  | .int n => some n

/-- The body of the `_coerce_arguments` loop for one value whose key has a
schema entry (`expectedType` is `properties[key].get("type")`).  The
`number` branch is modelled as the identity: over this float-free domain its
only effect in Python would be to introduce a float, which the embedding
does not represent (claim C8 concerns the boolean and integer branches
only); a failed float parse keeps the value, as here. -/
def coerceValue (expectedType : Option (List Char)) (v : JValue) : JValue :=
  if expectedType = some (chars "boolean") ∧ pyIsInstBool v = false then
    match v with
    | .str s => .bool (decide (pyLower s ∈ pyBoolStrings))
    | _ => .bool (pyBool v)
  else if expectedType = some (chars "integer") ∧ pyIsInstInt v = false then
    match pyIntAttempt v with
    | some n => .int n
    | none => v
  else
    v

/-- One argument entry of `_coerce_arguments`: keys missing from
`properties` and `None` values are left untouched (`continue`). -/
def coerceEntryValue (properties : List (List Char × Option (List Char)))
    (k : List Char) (v : JValue) : JValue :=
  match lookupAssoc properties k with
  | none => v
  | some expectedType =>
    match v with
    | .null => v
    | _ => coerceValue expectedType v

/-- `_coerce_arguments(arguments, schema)` from registry.py; `properties`
maps each schema property name to its `"type"` field (`none` when the
schema entry has no `type`). -/
def coerce_arguments (arguments : List (List Char × JValue))
    (properties : List (List Char × Option (List Char))) :
    List (List Char × JValue) :=
  arguments.map (fun kv => (kv.1, coerceEntryValue properties kv.1 kv.2))

theorem lookupAssoc_coerce_arguments (arguments : List (List Char × JValue))
    (properties : List (List Char × Option (List Char))) (k : List Char) :
    lookupAssoc (coerce_arguments arguments properties) k =
      (lookupAssoc arguments k).map (coerceEntryValue properties k) := by
  induction arguments with
  | nil => rfl
  | cons kv rest ih =>
    show lookupAssoc ((kv.1, coerceEntryValue properties kv.1 kv.2)
        :: coerce_arguments rest properties) k = _
    unfold lookupAssoc
    by_cases h : kv.1 = k
    · subst h
      simp [List.find?_cons]
    · have hd : (decide (kv.1 = k)) = false := by simp [h]
      simp only [List.find?_cons, hd]
      exact ih

/-- C8: during dispatch argument coercion, a string value for a
boolean-typed argument coerces to `true` exactly when it is `"true"`, `"1"`
or `"yes"` case-insensitively (and to `false` otherwise); a non-string,
non-bool, non-null value coerces to its Python truthiness; and for an
integer-typed argument, a value whose `int()` attempt fails is kept
unchanged. -/
theorem coerce_arguments_spec (arguments : List (List Char × JValue))
    (properties : List (List Char × Option (List Char))) (k : List Char) :
    (∀ s : List Char, lookupAssoc arguments k = some (.str s) →
      lookupAssoc properties k = some (some (chars "boolean")) →
      lookupAssoc (coerce_arguments arguments properties) k =
        some (.bool (decide (pyLower s ∈ pyBoolStrings)))) ∧
    (∀ v : JValue, lookupAssoc arguments k = some v →
      lookupAssoc properties k = some (some (chars "boolean")) →
      pyIsInstBool v = false → (∀ s, v ≠ .str s) → v ≠ .null →
      lookupAssoc (coerce_arguments arguments properties) k =
        some (.bool (pyBool v))) ∧
    (∀ v : JValue, lookupAssoc arguments k = some v →
      lookupAssoc properties k = some (some (chars "integer")) →
      pyIntAttempt v = none →
      lookupAssoc (coerce_arguments arguments properties) k = some v) := by
  refine ⟨fun s ha hp => ?_, fun v ha hp hnb hns hnn => ?_, fun v ha hp hfail => ?_⟩
  · rw [lookupAssoc_coerce_arguments, ha, Option.map_some']
    have hcv : coerceEntryValue properties k (.str s) =
        .bool (decide (pyLower s ∈ pyBoolStrings)) := by
      unfold coerceEntryValue
      rw [hp]
      show coerceValue (some (chars "boolean")) (.str s) = _
      unfold coerceValue
      rw [if_pos ⟨rfl, rfl⟩]
    rw [hcv]
  · rw [lookupAssoc_coerce_arguments, ha, Option.map_some']
    have hcv : coerceEntryValue properties k v = .bool (pyBool v) := by
      unfold coerceEntryValue
      rw [hp]
      cases v with
      | null => exact absurd rfl hnn
      | str s => exact absurd rfl (hns s)
      | bool b => simp [pyIsInstBool] at hnb
      | int n =>
        show coerceValue (some (chars "boolean")) (.int n) = _
        unfold coerceValue
        rw [if_pos ⟨rfl, rfl⟩]
      | list xs =>
        show coerceValue (some (chars "boolean")) (.list xs) = _
        unfold coerceValue
        rw [if_pos ⟨rfl, rfl⟩]
      | dict es =>
        show coerceValue (some (chars "boolean")) (.dict es) = _
        unfold coerceValue
        rw [if_pos ⟨rfl, rfl⟩]
    rw [hcv]
  · rw [lookupAssoc_coerce_arguments, ha, Option.map_some']
    have hcv : coerceEntryValue properties k v = v := by
      unfold coerceEntryValue
      rw [hp]
      cases v with
      | null => rfl
      | bool b => simp [pyIntAttempt] at hfail
      | int n => simp [pyIntAttempt] at hfail
      | str s =>
        show coerceValue (some (chars "integer")) (.str s) = _
        unfold coerceValue
        rw [if_neg (fun hh => absurd hh.1 (by decide)), if_pos ⟨rfl, rfl⟩]
        rw [show pyIntAttempt (.str s) = none from hfail]
      | list xs =>
        show coerceValue (some (chars "integer")) (.list xs) = _
        unfold coerceValue
        rw [if_neg (fun hh => absurd hh.1 (by decide)), if_pos ⟨rfl, rfl⟩]
        rfl
      | dict es =>
        show coerceValue (some (chars "integer")) (.dict es) = _
        unfold coerceValue
        rw [if_neg (fun hh => absurd hh.1 (by decide)), if_pos ⟨rfl, rfl⟩]
        rfl
    rw [hcv]

/-- Witness for C8: `"Yes"` coerces to true for a boolean parameter;
`"12x"` fails integer parsing and is kept. -/
theorem coerce_arguments_spec_witness :
    lookupAssoc (coerce_arguments
        [(chars "flag", .str (chars "Yes")), (chars "n", .str (chars "12x"))]
        [(chars "flag", some (chars "boolean")), (chars "n", some (chars "integer"))])
      (chars "flag") = some (.bool true) ∧
    lookupAssoc (coerce_arguments
        [(chars "flag", .str (chars "Yes")), (chars "n", .str (chars "12x"))]
        [(chars "flag", some (chars "boolean")), (chars "n", some (chars "integer"))])
      (chars "n") = some (.str (chars "12x")) :=
  ⟨(coerce_arguments_spec _ _ (chars "flag")).1 (chars "Yes") rfl rfl,
   (coerce_arguments_spec _ _ (chars "n")).2.2 (.str (chars "12x")) rfl rfl rfl⟩

/-! ## Write tool (write.py lines 14-153) - claim C10 -/

/-- `SENSITIVE_PATTERNS` from write.py. -/
def SENSITIVE_PATTERNS : List (List Char) :=
  [chars ".bashrc", chars ".zshrc", chars ".profile", chars ".bash_profile",
   chars ".ssh/", chars ".gnupg/", chars ".aws/", chars ".config/",
   chars "/etc/", chars "/usr/", chars "/bin/", chars "/sbin/"]

/-- Filesystem effects of the write handler, in order of occurrence. -/
inductive FsOp where
  | mkdirParents
  | writeText (content : List Char)

/-- UTF-8 byte length: `len(content.encode("utf-8"))`. -/
def utf8Len (s : List Char) : Nat := (s.map Char.utf8Size).sum

/-- `WriteHandler.handle` at the content level.  `resolvedPath` is
`str(Path(path_str).expanduser().resolve())` and `pathExists` /
`existsAfterMkdir` are the two `path.exists()` queries (environmental).
The effect list records parent-directory creation and the file write in
order; an empty list means the filesystem was not touched. -/
def write_handle (createOnly : Bool) (resolvedPath : List Char)
    (pathExists existsAfterMkdir : Bool) (pathStr content : List Char) :
    ToolOutput × List FsOp :=
  if pathStr = [] then (⟨chars "No path provided", false, []⟩, [])
  else if content = [] then (⟨chars "No content provided", false, []⟩, [])
  else
    let size := utf8Len content
    let lineCount := content.count '\n' +
      (if content ≠ [] ∧ content.getLast? ≠ some '\n' then 1 else 0)
    let action := if createOnly then chars "Created"
      else if existsAfterMkdir then chars "Overwrote" else chars "Created"
    let success : ToolOutput × List FsOp :=
      (⟨action ++ chars " " ++ resolvedPath ++ chars " (" ++ (toString size).data
          ++ chars " bytes, " ++ (toString lineCount).data ++ chars " lines)",
        true,
        [(chars "path", JValue.str resolvedPath),
         (chars "size_bytes", JValue.int (Int.ofNat size)),
         (chars "lines", JValue.int (Int.ofNat lineCount)),
         (chars "overwrote", JValue.bool (existsAfterMkdir && !createOnly))]⟩,
       [FsOp.mkdirParents, FsOp.writeText content])
    if createOnly then
      if SENSITIVE_PATTERNS.any (fun p => containsSub (pyLower resolvedPath) p) then
        (⟨chars "Cannot write to sensitive location: " ++ resolvedPath, false, []⟩, [])
      else if pathExists then
        (⟨chars "File already exists: " ++ resolvedPath ++
            chars ". Use a different path or delete the existing file first.",
          false, []⟩, [])
      else success
    else success

/-- C10 counterexample: when the `path` argument is also empty, `handle`
returns "No path provided" (the path check precedes the content check), not
the claimed "No content provided". -/
theorem write_handle_empty_path_counterexample :
    (write_handle true (chars "/tmp/out.txt") false false [] []).1.content
        = chars "No path provided" ∧
    ¬((write_handle true (chars "/tmp/out.txt") false false [] []).1.content
        = chars "No content provided") := by decide

/-- C10 (amended): for every invocation with a nonempty `path` argument and
an absent or empty `content` argument, `handle` returns the failed
ToolOutput "No content provided" and performs no filesystem effect (no file
written, no parent directory created), in both create_only and full modes. -/
theorem write_handle_spec (createOnly : Bool)
    (resolvedPath : List Char) (pathExists existsAfterMkdir : Bool)
    (pathStr : List Char) (hp : pathStr ≠ []) :
    write_handle createOnly resolvedPath pathExists existsAfterMkdir pathStr [] =
      (⟨chars "No content provided", false, []⟩, []) := by
  unfold write_handle
  rw [if_neg hp, if_pos rfl]

/-- Witness for C10: both modes at a concrete path. -/
theorem write_handle_spec_witness :
    write_handle true (chars "/tmp/out.txt") false false (chars "/tmp/out.txt") [] =
      (⟨chars "No content provided", false, []⟩, []) ∧
    write_handle false (chars "/tmp/out.txt") true true (chars "/tmp/out.txt") [] =
      (⟨chars "No content provided", false, []⟩, []) :=
  ⟨write_handle_spec true (chars "/tmp/out.txt") false false
      (chars "/tmp/out.txt") (by decide),
   write_handle_spec false (chars "/tmp/out.txt") true true
      (chars "/tmp/out.txt") (by decide)⟩

/-! ## Session (session.py) and compaction (agent.py lines 21-224) - claim C6 -/

/-- A serialized tool call as stored in history by `run_turn`:
`{"id": ..., "type": "function", "function": {"name": ...,
"arguments": json.dumps(args)}}`. -/
structure SerToolCall where
  id : List Char
  name : List Char
  argumentsJson : List Char
deriving DecidableEq

/-- A history message: the four OpenAI-format dict shapes produced by
Session's methods (the system prompt is a separate Session field, never in
history). -/
inductive Msg where
  | user (content : List Char)
  | assistant (content : List Char)
  | assistantToolCalls (toolCalls : List SerToolCall)
  | tool (toolCallId : List Char) (content : List Char)
deriving DecidableEq

/-- `ToolResult` from session.py. -/
structure ToolResult where
  tool_call_id : List Char
  content : List Char
deriving DecidableEq

/-- `Session` from session.py. -/
structure Session where
  system_prompt : List Char
  history : List Msg
  total_input_tokens : Nat
  total_output_tokens : Nat
deriving DecidableEq

def Session.add_user_message (s : Session) (content : List Char) : Session :=
  { s with history := s.history ++ [Msg.user content] }

def Session.add_assistant_message (s : Session) (content : List Char) : Session :=
  { s with history := s.history ++ [Msg.assistant content] }

def Session.add_assistant_tool_calls (s : Session)
    (toolCalls : List SerToolCall) : Session :=
  { s with history := s.history ++ [Msg.assistantToolCalls toolCalls] }

def Session.add_tool_results (s : Session) (results : List ToolResult) : Session :=
  { s with history :=
      s.history ++ results.map (fun r => Msg.tool r.tool_call_id r.content) }

def Session.update_token_usage (s : Session) (inputTokens outputTokens : Nat) :
    Session :=
  { s with total_input_tokens := s.total_input_tokens + inputTokens,
           total_output_tokens := s.total_output_tokens + outputTokens }

/-- `Session.get_user_messages`: user-role messages with truthy (nonempty)
content. -/
def Session.get_user_messages (s : Session) : List (List Char) :=
  s.history.filterMap (fun m =>
    match m with
    | .user c => if c = [] then none else some c
    | _ => none)

/-- `Session.replace_with_summary(summary, recent_user_messages)`. -/
def Session.replace_with_summary (s : Session) (summary : List Char)
    (recent : List (List Char)) : Session :=
  { s with history := recent.map Msg.user ++ [Msg.user summary] }

/-- One lowercase hex digit. -/
def hexDigit (n : Nat) : Char :=
  if n < 10 then Char.ofNat ('0'.toNat + n) else Char.ofNat ('a'.toNat + n - 10)

/-- Python `repr` of a string, at ASCII fidelity: single quotes unless the
string contains `'` but no `"`; backslash escapes for the quote, backslash,
newline, carriage return, tab; `\xhh` for other control characters. -/
def pyReprStr (s : List Char) : List Char :=
  let useDouble := s.contains '\'' && !s.contains '"'
  let q : Char := if useDouble then '"' else '\''
  q :: s.foldr (fun c acc =>
    (if c = '\\' then ['\\', '\\']
     else if c = q then ['\\', q]
     else if c = '\n' then ['\\', 'n']
     else if c = '\x0d' then ['\\', 'r']
     else if c = '\t' then ['\\', 't']
     else if c.toNat < 32 || c.toNat = 127 then
       ['\\', 'x', hexDigit (c.toNat / 16), hexDigit (c.toNat % 16)]
     else [c]) ++ acc) [q]

/-- Python `repr` of one stored tool-call dict (insertion order of the keys
as built in run_turn). -/
def pyReprToolCall (tc : SerToolCall) : List Char :=
  Char.ofNat 123 :: (chars "'id': " ++ pyReprStr tc.id
    ++ chars ", 'type': 'function', 'function': " ++ [Char.ofNat 123]
    ++ chars "'name': " ++ pyReprStr tc.name
    ++ chars ", 'arguments': " ++ pyReprStr tc.argumentsJson
    ++ [Char.ofNat 125, Char.ofNat 125])

/-- Python `str(...)` of the stored tool-call list, used by
`estimate_tokens`. -/
def pyReprToolCalls (tcs : List SerToolCall) : List Char :=
  '[' :: (List.intercalate (chars ", ") (tcs.map pyReprToolCall) ++ [']'])

/-- `Session.estimate_tokens`: total characters of system prompt plus
history (string contents; `str(tool_calls)` when the truthy `tool_calls`
key is present) divided by 4. -/
def Session.estimate_tokens (s : Session) : Nat :=
  (s.system_prompt.length +
    (s.history.map (fun m =>
      match m with
      | .user c => c.length
      | .assistant c => c.length
      | .assistantToolCalls tcs =>
        if tcs = [] then 0 else (pyReprToolCalls tcs).length
      | .tool _ c => c.length)).sum) / 4

/-- `COMPACTION_SYSTEM_PROMPT` from agent.py. -/
def COMPACTION_SYSTEM_PROMPT : List Char :=
  chars "You are performing a CONTEXT CHECKPOINT COMPACTION. Create a handoff summary for another LLM that will resume the task.\n\nInclude:\n- Current progress and key decisions made\n- Important context, constraints, or user preferences discovered\n- What remains to be done (clear next steps)\n- Any critical data, file paths, or references needed to continue\n\nBe concise, structured, and focused on helping the next LLM seamlessly continue the work."

/-- `SUMMARY_PREFIX` from agent.py (named `SUMMARY_PREAMBLE` in this file). -/
def SUMMARY_PREAMBLE : List Char :=
  chars "Another language model worked on this task and produced a summary of its progress. Use this to build on the work that has already been done and avoid duplicating effort. Here is the summary:\n\n"

/-- The parts contributed by one message in
`Agent._format_history_for_summary` (the `'unknown'` default for a tool
call's name never fires: stored calls always carry a name). -/
def msgSummaryParts : Msg → List (List Char)
  | .user c => [chars "User: " ++ c]
  | .assistant c => if c = [] then [] else [chars "Assistant: " ++ c]
  | .assistantToolCalls tcs =>
    tcs.map (fun tc => chars "Assistant called tool: " ++ tc.name)
  | .tool _ c =>
    [chars "Tool result: " ++ (if 500 < c.length then c.take 500 ++ chars "..." else c)]

/-- `Agent._format_history_for_summary`. -/
def format_history_for_summary (s : Session) : List Char :=
  List.intercalate (chars "\n\n") (s.history.map msgSummaryParts).flatten

/-- The messages `Agent.compact` sends to `ModelClient.complete`:
`(role, content)` pairs. -/
def compactMessages (s : Session) (customInstructions : List Char) :
    List (List Char × List Char) :=
  [(chars "system",
    COMPACTION_SYSTEM_PROMPT ++
      (if customInstructions = [] then []
       else chars "\n\nUser guidance: " ++ customInstructions)),
   (chars "user",
    chars "Here is the conversation to summarize:\n\n"
      ++ format_history_for_summary s)]

/-- `CompactResult` from agent.py. -/
structure CompactResult where
  summary : List Char
  tokens_before : Nat
  tokens_after : Nat
  trigger : List Char
deriving DecidableEq

/-- The summarization model call: `ModelClient.complete(messages)` returns
`(content, usage)`; the environment supplies its result (the source
`complete` catches every exception and returns an error string, so it is a
total function). -/
structure CompactEnv where
  complete : List (List Char × List Char) → List Char × Nat × Nat

/-- `Agent.compact(custom_instructions, trigger)` from agent.py. -/
def Agent.compact (env : CompactEnv) (s : Session)
    (customInstructions trigger : List Char) : Session × CompactResult :=
  let tokensBefore := s.estimate_tokens
  let r := env.complete (compactMessages s customInstructions)
  let summary := r.1
  let s1 := s.update_token_usage r.2.1 r.2.2
  let formatted := SUMMARY_PREAMBLE ++ summary
  let userMessages := s1.get_user_messages
  let recent := if 3 < userMessages.length then pyTakeLast 3 userMessages else []
  let s2 := s1.replace_with_summary formatted recent
  (s2, ⟨summary, tokensBefore, s2.estimate_tokens, trigger⟩)

/-- Environment and session for the C6 counterexample: a session whose
history is exactly 3 user messages, and a summarizer returning `"S"`. -/
def c6Session : Session :=
  ⟨chars "sys", [Msg.user (chars "a"), Msg.user (chars "b"), Msg.user (chars "c")], 0, 0⟩

def c6Env : CompactEnv := ⟨fun _ => (chars "S", 0, 0)⟩

/-- C6 counterexample: with exactly 3 user messages, `compact` preserves
none of them (the source keeps `user_messages[-3:]` only when there are
MORE than 3), so the history is not "the last 3 entries of
get_user_messages re-appended, then the summary" as claimed. -/
theorem compact_three_messages_counterexample :
    ((Agent.compact c6Env c6Session [] (chars "manual")).1).history ≠
      (pyTakeLast 3 (Session.get_user_messages c6Session)).map Msg.user
        ++ [Msg.user (SUMMARY_PREAMBLE ++ chars "S")] := by decide

/-- C6 (amended): `Agent.compact` replaces the session history with: the
last 3 entries of `get_user_messages()` re-appended as user messages in
order when the session has more than 3 user messages, and no preserved
messages otherwise; followed by one user message equal to SUMMARY_PREFIX
concatenated with the summary returned by `ModelClient.complete`; nothing
else remains. -/
theorem compact_history_spec (env : CompactEnv) (s : Session)
    (customInstructions trigger : List Char) :
    ((Agent.compact env s customInstructions trigger).1).history =
      (if 3 < (Session.get_user_messages s).length
       then pyTakeLast 3 (Session.get_user_messages s)
       else []).map Msg.user
      ++ [Msg.user (SUMMARY_PREAMBLE
            ++ (env.complete (compactMessages s customInstructions)).1)] := by
  rfl

/-! ## Agent loop (agent.py lines 226-408) - claims C1, C5, C9 -/

/- Structural Bool equality on JValue (Python `==`).  Python dict equality
is key-set based; these association lists compare in order, which agrees
with Python whenever the dicts were built in the same key order (as
argument dicts parsed from the same JSON fragment are). -/
mutual
def jvalEq : JValue → JValue → Bool
  | .str a, .str b => a == b
  | .bool a, .bool b => a == b
  | .int a, .int b => a == b
  | .null, .null => true
  | .list a, .list b => jvalListEq a b
  | .dict a, .dict b => jvalDictEq a b
  | _, _ => false
def jvalListEq : List JValue → List JValue → Bool
  | [], [] => true
  | x :: xs, y :: ys => jvalEq x y && jvalListEq xs ys
  | _, _ => false
def jvalDictEq : List (List Char × JValue) → List (List Char × JValue) → Bool
  | [], [] => true
  | (k1, v1) :: xs, (k2, v2) :: ys => k1 == k2 && jvalEq v1 v2 && jvalDictEq xs ys
  | _, _ => false
end

/-- JSON string escaping as `json.dumps` performs it (ASCII fidelity). -/
def jsonEscape (s : List Char) : List Char :=
  s.foldr (fun c acc =>
    (if c = '"' then ['\\', '"']
     else if c = '\\' then ['\\', '\\']
     else if c = '\n' then ['\\', 'n']
     else if c = '\x0d' then ['\\', 'r']
     else if c = '\t' then ['\\', 't']
     else if c.toNat < 32 then
       ['\\', 'u', '0', '0', hexDigit (c.toNat / 16), hexDigit (c.toNat % 16)]
     else [c]) ++ acc) []

/- The functions jsonDumps / jsonDumpsList / jsonDumpsDict embed
`json.dumps` with its default separators `", "` and `": "`. -/
mutual
def jsonDumps : JValue → List Char
  | .str s => '"' :: (jsonEscape s ++ ['"'])
  | .bool b => if b then chars "true" else chars "false"
  | .int n => (toString n).data
  | .null => chars "null"
  | .list xs => '[' :: (jsonDumpsList xs ++ [']'])
  | .dict es => Char.ofNat 123 :: (jsonDumpsDict es ++ [Char.ofNat 125])
def jsonDumpsList : List JValue → List Char
  | [] => []
  | [x] => jsonDumps x
  | x :: y :: xs => jsonDumps x ++ chars ", " ++ jsonDumpsList (y :: xs)
def jsonDumpsDict : List (List Char × JValue) → List Char
  | [] => []
  | [(k, v)] => '"' :: (jsonEscape k ++ chars "\": ") ++ jsonDumps v
  | (k, v) :: e :: es =>
    ('"' :: (jsonEscape k ++ chars "\": ") ++ jsonDumps v) ++ chars ", "
      ++ jsonDumpsDict (e :: es)
end

/-- An assembled tool call from the model stream (model.py `ToolCall`). -/
structure ToolCall where
  id : List Char
  name : List Char
  arguments : List (List Char × JValue)

/-- A `StreamEvent` from model.py as `run_turn` consumes it.  Per the
stream contract the event list of one round is finite and the source
`stream` converts every transport exception into an `error` event. -/
inductive StreamEvent where
  | text (content : Option (List Char))
  | toolCall (tc : Option ToolCall)
  | done (usage : Option (Nat × Nat))
  | error (content : Option (List Char))

/-- The `type` strings of `AgentEvent`. -/
inductive EvType where
  | text
  | tool_start
  | tool_end
  | turn_complete
  | error
  | tool_blocked
  | compact_start
  | compact_end
  | cancelled
deriving DecidableEq

/-- `AgentEvent` from agent.py. -/
structure AgentEvent where
  type : EvType
  content : Option (List Char)
  tool_name : Option (List Char)
  tool_args : Option (List (List Char × JValue))
  tool_result : Option (List Char)
  tool_metadata : Option (List (List Char × JValue))
  usage : Option (Nat × Nat)

def textEvent (c : Option (List Char)) : AgentEvent :=
  ⟨.text, c, none, none, none, none, none⟩

def toolStartEvent (name : List Char) (args : List (List Char × JValue)) : AgentEvent :=
  ⟨.tool_start, none, some name, some args, none, none, none⟩

def toolEndEvent (name result : List Char)
    (metadata : List (List Char × JValue)) : AgentEvent :=
  ⟨.tool_end, none, some name, none, some result, some metadata, none⟩

def toolBlockedEvent (name : List Char) (args : List (List Char × JValue)) : AgentEvent :=
  ⟨.tool_blocked, none, some name, some args, none, none, none⟩

def cancelledEvent (c : List Char) : AgentEvent :=
  ⟨.cancelled, some c, none, none, none, none, none⟩

def errorEvent (c : Option (List Char)) : AgentEvent :=
  ⟨.error, c, none, none, none, none, none⟩

def turnCompleteEvent (s : Session) : AgentEvent :=
  ⟨.turn_complete, none, none, none, none, none,
    some (s.total_input_tokens, s.total_output_tokens)⟩

def compactStartEvent : AgentEvent :=
  ⟨.compact_start, some (chars "auto"), none, none, none, none, none⟩

/-- The `compact_end` event; the source f-string's arrow renders as the
literal bytes stored in agent.py. -/
def compactEndEvent (r : CompactResult) : AgentEvent :=
  ⟨.compact_end,
    some (chars "Compacted: " ++ (toString r.tokens_before).data
      ++ chars " â†’ " ++ (toString r.tokens_after).data ++ chars " tokens"),
    none, none, none, none, none⟩

/-- The nondeterministic environment of one `run_turn` call: the model
stream script per round, the external `cancel_check` results (indexed by
consultation count), the approval callback presence and results (indexed by
invocation count), the registry's per-tool approval flag, the dispatch
results (indexed by dispatch count; `Registry.dispatch` catches every
non-cancellation exception, so it is a total function into `ToolOutput`),
and `ModelClient.complete` for auto-compaction. -/
structure AgentEnv where
  rounds : List (List StreamEvent)
  cancelAt : Nat → Bool
  hasApproval : Bool
  approveAt : Nat → Bool
  requiresApproval : List Char → Bool
  dispatchAt : Nat → ToolOutput
  complete : List (List Char × List Char) → List Char × Nat × Nat
  autoCompact : Bool
  contextLimit : Nat

/-- `Agent.is_cancelled` at its `k`-th call within the turn: the external
check is latched, so the result is true when any consultation up to `k`
returned true (`request_cancel` from another task is subsumed by the
schedule). -/
def isCancelled (env : AgentEnv) (k : Nat) : Bool :=
  (List.range (k + 1)).any env.cancelAt

/-- `Agent.should_auto_compact`: `estimate_tokens() > int(context_limit *
0.8)`; the float multiplication is modelled as `contextLimit * 8 / 10`,
which agrees with the source for every context limit small enough that the
float product is exact (in particular the default 100000). -/
def should_auto_compact (env : AgentEnv) (s : Session) : Bool :=
  env.autoCompact && decide (env.contextLimit * 8 / 10 < s.estimate_tokens)

/-- A pending tool call `(id, name, args)` as accumulated by `run_turn`. -/
structure PendingCall where
  id : List Char
  name : List Char
  arguments : List (List Char × JValue)

/-- Python `==` on the pending-call tuple. -/
def pendingEq (p q : PendingCall) : Bool :=
  p.id == q.id && p.name == q.name && jvalDictEq p.arguments q.arguments

/-- Python `pending_tool_calls.index(x)`: the first index whose element
compares equal (the element is always present at the call sites). -/
def pendingIndexOf (full : List PendingCall) (x : PendingCall) : Nat :=
  full.findIdx (fun y => pendingEq y x)

/-- Accumulators of the streaming phase of one round. -/
structure StreamAcc where
  text : List Char
  toolCalls : List SerToolCall
  pending : List PendingCall

inductive StreamRes where
  | cancelled
  | errored
  | ended (acc : StreamAcc)

structure StreamOut where
  events : List AgentEvent
  sess : Session
  nc : Nat
  res : StreamRes

/-- The `async for event in self._client.stream(prompt)` loop of
`run_turn`: cancellation is checked before each stream event; text deltas
accumulate (`event.content or ""`); truthy tool calls are serialized and
appended to the pending list; `done` records usage; `error` is yielded and
ends the turn. -/
def processStream (env : AgentEnv) :
    List StreamEvent → Session → Nat → StreamAcc → StreamOut
  | [], sess, nc, acc => ⟨[], sess, nc, .ended acc⟩
  | e :: rest, sess, nc, acc =>
    if isCancelled env nc then
      ⟨[cancelledEvent (chars "Cancelled during model response")], sess, nc + 1,
        .cancelled⟩
    else
      match e with
      | .text c =>
        let r := processStream env rest sess (nc + 1)
          { acc with text := acc.text ++ c.getD [] }
        ⟨textEvent c :: r.events, r.sess, r.nc, r.res⟩
      | .toolCall none => processStream env rest sess (nc + 1) acc
      | .toolCall (some tc) =>
        let r := processStream env rest sess (nc + 1)
          ⟨acc.text,
           acc.toolCalls ++ [⟨tc.id, tc.name, jsonDumps (.dict tc.arguments)⟩],
           acc.pending ++ [⟨tc.id, tc.name, tc.arguments⟩]⟩
        ⟨toolStartEvent tc.name tc.arguments :: r.events, r.sess, r.nc, r.res⟩
      | .done usage =>
        let sess1 := match usage with
          | some u => sess.update_token_usage u.1 u.2
          | none => sess
        processStream env rest sess1 (nc + 1) acc
      | .error c => ⟨[errorEvent c], sess, nc + 1, .errored⟩

inductive ExecRes where
  | cancelled
  | rejectedEnd
  | completed
deriving DecidableEq

structure ExecOut where
  events : List AgentEvent
  results : List ToolResult
  nc : Nat
  napp : Nat
  nd : Nat
  res : ExecRes

/-- The tool-execution loop of `run_turn` over the pending calls (`full` is
the complete pending list, kept for the `.index()` computation the source
performs on rejection).  On rejection the synthesized "skipped" results
cover `pending_tool_calls[pending_tool_calls.index(current) + 1:]`. -/
def execToolsAux (env : AgentEnv) (full : List PendingCall) :
    List PendingCall → Nat → Nat → Nat → List ToolResult → ExecOut
  | [], nc, napp, nd, results => ⟨[], results, nc, napp, nd, .completed⟩
  | p :: rest, nc, napp, nd, results =>
    if isCancelled env nc then
      ⟨[cancelledEvent (chars "Cancelled before tool execution")], results,
        nc + 1, napp, nd, .cancelled⟩
    else
      let needsApproval := env.hasApproval && env.requiresApproval p.name
      if needsApproval && !env.approveAt napp then
        let idx := pendingIndexOf full p
        let skipped := (full.drop (idx + 1)).map (fun q =>
          (⟨q.id, chars "Command skipped - user rejected previous command."⟩ : ToolResult))
        ⟨[toolBlockedEvent p.name p.arguments],
          results
            ++ [⟨p.id, chars "Command rejected by user. Awaiting new instructions."⟩]
            ++ skipped,
          nc + 1, napp + 1, nd, .rejectedEnd⟩
      else
        let napp1 := if needsApproval then napp + 1 else napp
        let out := env.dispatchAt nd
        let truncated := truncate_output out.content MAX_TOOL_OUTPUT_CHARS
        let r := execToolsAux env full rest (nc + 1) napp1 (nd + 1)
          (results ++ [⟨p.id, truncated⟩])
        ⟨toolEndEvent p.name truncated out.metadata :: r.events, r.results,
          r.nc, r.napp, r.nd, r.res⟩

inductive TurnRes where
  | finished
  | modelPending
deriving DecidableEq

structure TurnOut where
  events : List AgentEvent
  sess : Session
  res : TurnRes

/-- The `while True` loop of `run_turn`, one recursion step per model
round.  The environment script `rounds` is finite; `modelPending` marks the
point where the agent would open another model stream beyond the script
(the turn is still in progress there, so the terminal-event claim
quantifies over runs that finish within the script). -/
def runRounds (env : AgentEnv) :
    List (List StreamEvent) → Session → Nat → Nat → Nat → TurnOut
  | [], sess, _, _, _ => ⟨[], sess, .modelPending⟩
  | evs :: rest, sess, nc, napp, nd =>
    if isCancelled env nc then
      ⟨[cancelledEvent (chars "Cancelled before model call")], sess, .finished⟩
    else
      let sr := processStream env evs sess (nc + 1) ⟨[], [], []⟩
      match sr.res with
      | .cancelled => ⟨sr.events, sr.sess, .finished⟩
      | .errored => ⟨sr.events, sr.sess, .finished⟩
      | .ended acc =>
        let sess2 :=
          if acc.toolCalls ≠ [] then sr.sess.add_assistant_tool_calls acc.toolCalls
          else if acc.text ≠ [] then sr.sess.add_assistant_message acc.text
          else sr.sess
        if acc.pending.isEmpty then
          ⟨sr.events ++ [turnCompleteEvent sess2], sess2, .finished⟩
        else
          let er := execToolsAux env acc.pending acc.pending sr.nc napp nd []
          match er.res with
          | .cancelled => ⟨sr.events ++ er.events, sess2, .finished⟩
          | .rejectedEnd =>
            let sess3 := sess2.add_tool_results er.results
            ⟨sr.events ++ er.events ++ [turnCompleteEvent sess3], sess3, .finished⟩
          | .completed =>
            let sess3 := sess2.add_tool_results er.results
            let rr := runRounds env rest sess3 er.nc er.napp er.nd
            ⟨sr.events ++ er.events ++ rr.events, rr.sess, rr.res⟩

/-- `Agent.run_turn(user_input)`: reset cancellation, auto-compact when the
estimate exceeds the threshold, append the user message, then the round
loop.  A total function: no exception crosses the event-stream boundary. -/
def run_turn (env : AgentEnv) (sess : Session) (userInput : List Char) : TurnOut :=
  let pre :=
    if should_auto_compact env sess then
      let c := Agent.compact ⟨env.complete⟩ sess [] (chars "auto")
      (c.1, [compactStartEvent, compactEndEvent c.2])
    else (sess, ([] : List AgentEvent))
  let sessB := pre.1.add_user_message userInput
  let rr := runRounds env env.rounds sessB 0 0 0
  ⟨pre.2 ++ rr.events, rr.sess, rr.res⟩

/-- No `error`-typed event occurs in the list. -/
def noErrorEvents (evs : List AgentEvent) : Prop := ∀ e ∈ evs, e.type ≠ .error

/-- The event list is nonempty and its last event is `turn_complete`,
`cancelled` or `error`. -/
def EndsTerminal (evs : List AgentEvent) : Prop :=
  ∃ e, evs.getLast? = some e ∧
    (e.type = .turn_complete ∨ e.type = .cancelled ∨ e.type = .error)

theorem endsTerminal_ne_nil {evs : List AgentEvent} (h : EndsTerminal evs) :
    evs ≠ [] := by
  obtain ⟨e, he, _⟩ := h
  intro hn
  subst hn
  simp at he

theorem endsTerminal_cons {evs : List AgentEvent} (x : AgentEvent)
    (h : EndsTerminal evs) : EndsTerminal (x :: evs) := by
  obtain ⟨e, he, ht⟩ := h
  cases evs with
  | nil => simp at he
  | cons y ys => exact ⟨e, he, ht⟩

theorem endsTerminal_append {a b : List AgentEvent} (h : EndsTerminal b) :
    EndsTerminal (a ++ b) := by
  induction a with
  | nil => exact h
  | cons x xs ih => exact endsTerminal_cons x ih

theorem endsTerminal_singleton {e : AgentEvent}
    (h : e.type = .turn_complete ∨ e.type = .cancelled ∨ e.type = .error) :
    EndsTerminal [e] := ⟨e, rfl, h⟩

theorem noError_nil : noErrorEvents [] := fun e he => absurd he (List.not_mem_nil e)

theorem noError_cons {evs : List AgentEvent} {x : AgentEvent}
    (hx : x.type ≠ .error) (h : noErrorEvents evs) : noErrorEvents (x :: evs) := by
  intro e he
  rcases List.mem_cons.mp he with rfl | hm
  · exact hx
  · exact h e hm

theorem noError_append {a b : List AgentEvent} (ha : noErrorEvents a)
    (hb : noErrorEvents b) : noErrorEvents (a ++ b) := by
  intro e he
  rcases List.mem_append.mp he with hm | hm
  · exact ha e hm
  · exact hb e hm

theorem noError_dropLast {evs : List AgentEvent} (h : noErrorEvents evs) :
    noErrorEvents evs.dropLast :=
  fun e he => h e (List.dropLast_sublist evs |>.mem he)

theorem errorOnlyLast_cons {evs : List AgentEvent} (x : AgentEvent)
    (hx : x.type ≠ .error) (hne : evs ≠ [])
    (h : noErrorEvents evs.dropLast) : noErrorEvents (x :: evs).dropLast := by
  cases evs with
  | nil => exact absurd rfl hne
  | cons y ys => exact noError_cons hx h

theorem errorOnlyLast_append {a b : List AgentEvent} (ha : noErrorEvents a)
    (hne : b ≠ []) (hb : noErrorEvents b.dropLast) :
    noErrorEvents (a ++ b).dropLast := by
  rw [List.dropLast_append_of_ne_nil a hne]
  exact noError_append ha hb

/-- Event-stream invariants of the streaming phase: an `ended` round yields
no error event; a `cancelled` or `errored` round ends in the corresponding
terminal event, with no error before it. -/
theorem processStream_spec (env : AgentEnv) (evs : List StreamEvent) :
    ∀ (sess : Session) (nc : Nat) (acc : StreamAcc),
      (∀ a, (processStream env evs sess nc acc).res = .ended a →
        noErrorEvents (processStream env evs sess nc acc).events) ∧
      ((processStream env evs sess nc acc).res = .cancelled →
        EndsTerminal (processStream env evs sess nc acc).events ∧
        noErrorEvents (processStream env evs sess nc acc).events) ∧
      ((processStream env evs sess nc acc).res = .errored →
        EndsTerminal (processStream env evs sess nc acc).events ∧
        noErrorEvents (processStream env evs sess nc acc).events.dropLast) := by
  induction evs with
  | nil =>
    intro sess nc acc
    refine ⟨fun a h => noError_nil, fun h => ?_, fun h => ?_⟩ <;> simp [processStream] at h
  | cons e rest ih =>
    intro sess nc acc
    simp only [processStream]
    by_cases hc : isCancelled env nc
    · rw [if_pos hc]
      refine ⟨fun a h => by simp at h, fun h => ?_, fun h => by simp at h⟩
      exact ⟨endsTerminal_singleton (Or.inr (Or.inl rfl)),
        noError_cons (by simp [cancelledEvent]) noError_nil⟩
    · rw [if_neg hc]
      cases e with
      | text c =>
        obtain ⟨ih1, ih2, ih3⟩ := ih sess (nc + 1) { acc with text := acc.text ++ c.getD [] }
        refine ⟨fun a h => noError_cons (by simp [textEvent]) (ih1 a h),
          fun h => ?_, fun h => ?_⟩
        · obtain ⟨ht, hn⟩ := ih2 h
          exact ⟨endsTerminal_cons _ ht, noError_cons (by simp [textEvent]) hn⟩
        · obtain ⟨ht, hn⟩ := ih3 h
          exact ⟨endsTerminal_cons _ ht,
            errorOnlyLast_cons _ (by simp [textEvent]) (endsTerminal_ne_nil ht) hn⟩
      | toolCall otc =>
        cases otc with
        | none => exact ih sess (nc + 1) acc
        | some tc =>
          obtain ⟨ih1, ih2, ih3⟩ := ih sess (nc + 1)
            ⟨acc.text,
             acc.toolCalls ++ [⟨tc.id, tc.name, jsonDumps (.dict tc.arguments)⟩],
             acc.pending ++ [⟨tc.id, tc.name, tc.arguments⟩]⟩
          refine ⟨fun a h => noError_cons (by simp [toolStartEvent]) (ih1 a h),
            fun h => ?_, fun h => ?_⟩
          · obtain ⟨ht, hn⟩ := ih2 h
            exact ⟨endsTerminal_cons _ ht, noError_cons (by simp [toolStartEvent]) hn⟩
          · obtain ⟨ht, hn⟩ := ih3 h
            exact ⟨endsTerminal_cons _ ht,
              errorOnlyLast_cons _ (by simp [toolStartEvent]) (endsTerminal_ne_nil ht) hn⟩
      | done usage => exact ih _ (nc + 1) acc
      | error c =>
        refine ⟨fun a h => by simp at h, fun h => by simp at h, fun h => ?_⟩
        exact ⟨endsTerminal_singleton (Or.inr (Or.inr rfl)), noError_nil⟩

/-- Event-stream invariants of the tool-execution phase. -/
theorem execTools_spec (env : AgentEnv) (full : List PendingCall)
    (l : List PendingCall) :
    ∀ (nc napp nd : Nat) (results : List ToolResult),
      ((execToolsAux env full l nc napp nd results).res = .completed →
        noErrorEvents (execToolsAux env full l nc napp nd results).events) ∧
      ((execToolsAux env full l nc napp nd results).res = .cancelled →
        EndsTerminal (execToolsAux env full l nc napp nd results).events ∧
        noErrorEvents (execToolsAux env full l nc napp nd results).events) ∧
      ((execToolsAux env full l nc napp nd results).res = .rejectedEnd →
        noErrorEvents (execToolsAux env full l nc napp nd results).events) := by
  induction l with
  | nil =>
    intro nc napp nd results
    refine ⟨fun _ => noError_nil, fun h => ?_, fun h => ?_⟩ <;>
      simp [execToolsAux] at h
  | cons p rest ih =>
    intro nc napp nd results
    simp only [execToolsAux]
    by_cases hc : isCancelled env nc
    · rw [if_pos hc]
      refine ⟨fun h => by simp at h, fun h => ?_, fun h => by simp at h⟩
      exact ⟨endsTerminal_singleton (Or.inr (Or.inl rfl)),
        noError_cons (by simp [cancelledEvent]) noError_nil⟩
    · rw [if_neg hc]
      by_cases hr : (env.hasApproval && env.requiresApproval p.name) = true
        ∧ env.approveAt napp = false
      · rw [if_pos (by simp [hr.1, hr.2])]
        refine ⟨fun h => by simp at h, fun h => by simp at h, fun h => ?_⟩
        exact noError_cons (by simp [toolBlockedEvent]) noError_nil
      · rw [if_neg (by
          intro hx
          rcases Bool.and_eq_true _ _ |>.mp hx with ⟨h1, h2⟩
          exact hr ⟨h1, by simpa using h2⟩)]
        obtain ⟨ih1, ih2, ih3⟩ := ih (nc + 1)
          (if env.hasApproval && env.requiresApproval p.name then napp + 1 else napp)
          (nd + 1)
          (results ++ [⟨p.id,
            truncate_output (env.dispatchAt nd).content MAX_TOOL_OUTPUT_CHARS⟩])
        refine ⟨fun h => noError_cons (by simp [toolEndEvent]) (ih1 h),
          fun h => ?_, fun h => noError_cons (by simp [toolEndEvent]) (ih3 h)⟩
        obtain ⟨ht, hn⟩ := ih2 h
        exact ⟨endsTerminal_cons _ ht, noError_cons (by simp [toolEndEvent]) hn⟩

/-- Event-stream invariants of the round loop: whenever the loop returns
within the environment script, the emitted events end in a terminal event
and contain no `error` event before the last position. -/
theorem runRounds_spec (env : AgentEnv) (rounds : List (List StreamEvent)) :
    ∀ (sess : Session) (nc napp nd : Nat),
      (runRounds env rounds sess nc napp nd).res = .finished →
      EndsTerminal (runRounds env rounds sess nc napp nd).events ∧
      noErrorEvents (runRounds env rounds sess nc napp nd).events.dropLast := by
  induction rounds with
  | nil =>
    intro sess nc napp nd h
    simp [runRounds] at h
  | cons evs rest ih =>
    intro sess nc napp nd
    simp only [runRounds]
    by_cases hc : isCancelled env nc
    · rw [if_pos hc]
      intro _
      exact ⟨endsTerminal_singleton (Or.inr (Or.inl rfl)), noError_nil⟩
    · rw [if_neg hc]
      obtain ⟨ps1, ps2, ps3⟩ :=
        processStream_spec env evs sess (nc + 1) (⟨[], [], []⟩ : StreamAcc)
      split
      · rename_i heq
        intro _
        obtain ⟨ht, hn⟩ := ps2 heq
        exact ⟨ht, noError_dropLast hn⟩
      · rename_i heq
        intro _
        exact ps3 heq
      · rename_i acc heq
        have hsn := ps1 acc heq
        by_cases hp : acc.pending.isEmpty
        · rw [if_pos hp]
          refine fun _ => ⟨endsTerminal_append (endsTerminal_singleton (Or.inl rfl)), ?_⟩
          rw [List.dropLast_concat]
          exact hsn
        · rw [if_neg hp]
          obtain ⟨es1, es2, es3⟩ := execTools_spec env acc.pending acc.pending
            (processStream env evs sess (nc + 1) (⟨[], [], []⟩ : StreamAcc)).nc napp nd []
          split
          · rename_i her
            intro _
            obtain ⟨ht, hn⟩ := es2 her
            exact ⟨endsTerminal_append ht, noError_dropLast (noError_append hsn hn)⟩
          · rename_i her
            intro _
            refine ⟨endsTerminal_append (endsTerminal_singleton (Or.inl rfl)), ?_⟩
            rw [List.dropLast_concat]
            exact noError_append hsn (es3 her)
          · rename_i her
            intro h
            obtain ⟨ht, hn⟩ := ih _ _ _ _ h
            exact ⟨endsTerminal_append ht,
              errorOnlyLast_append (noError_append hsn (es1 her))
                (endsTerminal_ne_nil ht) hn⟩

/-- C1: the event sequence yielded by `run_turn` is a finite list by
construction, and `run_turn` is a total function - no exception crosses the
event-stream boundary (the source model client turns transport exceptions
into `error` events and the registry turns handler exceptions into failed
ToolOutputs; `complete` inside compaction catches all exceptions).  For
every environment, session and user input such that the turn finishes
within the environment's model-round script, the last emitted event has
type `turn_complete`, `cancelled` or `error`, and an `error` event can only
be the last event. -/
theorem run_turn_spec (env : AgentEnv) (sess : Session) (userInput : List Char)
    (h : (run_turn env sess userInput).res = .finished) :
    EndsTerminal (run_turn env sess userInput).events ∧
    noErrorEvents (run_turn env sess userInput).events.dropLast := by
  simp only [run_turn] at h ⊢
  by_cases hac : should_auto_compact env sess
  · rw [if_pos hac] at h ⊢
    obtain ⟨ht, hn⟩ := runRounds_spec env env.rounds _ 0 0 0 h
    exact ⟨endsTerminal_append ht,
      errorOnlyLast_append
        (noError_cons (by simp [compactStartEvent])
          (noError_cons (by simp [compactEndEvent]) noError_nil))
        (endsTerminal_ne_nil ht) hn⟩
  · rw [if_neg hac] at h ⊢
    obtain ⟨ht, hn⟩ := runRounds_spec env env.rounds _ 0 0 0 h
    exact ⟨endsTerminal_append ht,
      errorOnlyLast_append noError_nil (endsTerminal_ne_nil ht) hn⟩

/-- A minimal concrete environment: one model round that just reports
`done`, no cancellation, no approval callback. -/
def c1Env : AgentEnv :=
  ⟨[[StreamEvent.done none]], fun _ => false, false, fun _ => false,
   fun _ => true, fun _ => ⟨[], true, []⟩, fun _ => ([], 0, 0), false, 100000⟩

def c1Session : Session := ⟨[], [], 0, 0⟩

/-- Witness for C1: the theorem applied to the concrete one-round
environment, whose turn finishes with a `turn_complete` event. -/
theorem run_turn_spec_witness :
    (run_turn c1Env c1Session (chars "hello")).res = .finished ∧
    (EndsTerminal (run_turn c1Env c1Session (chars "hello")).events ∧
     noErrorEvents (run_turn c1Env c1Session (chars "hello")).events.dropLast) :=
  ⟨by decide, run_turn_spec c1Env c1Session (chars "hello") (by decide)⟩

/-- Environment for the C5 failing input: approval callback configured, the
tool requires approval, the callback approves its first invocation and
rejects its second; dispatch returns "ok". -/
def c5Env : AgentEnv :=
  ⟨[], fun _ => false, true, fun n => n == 0, fun _ => true,
   fun _ => ⟨chars "ok", true, []⟩, fun _ => ([], 0, 0), false, 100000⟩

/-- Two pending tool calls whose `(id, name, args)` tuples compare equal
(nothing in the source enforces distinct ids across the calls of one
response). -/
def c5Pending : List PendingCall :=
  [⟨chars "call_1", chars "bash", []⟩, ⟨chars "call_1", chars "bash", []⟩]

/-- C5, code evaluated at the failing input: the first call is approved and
dispatched, the second (an equal tuple) is rejected.  The source computes
the remaining calls as `pending_tool_calls[pending_tool_calls.index(current)
+ 1:]`, and `.index` finds the FIRST equal tuple (index 0), so the rejected
call itself receives an additional "skipped" message: three tool messages
are synthesized for two calls, instead of the rejection message followed by
skipped messages for the genuinely remaining calls (none here), as the spec
and the source's own comment ("Add dummy results for remaining tool calls")
intend. -/
theorem execTools_duplicate_calls_bug :
    (execToolsAux c5Env c5Pending c5Pending 0 0 0 []).results =
      [⟨chars "call_1", chars "ok"⟩,
       ⟨chars "call_1", chars "Command rejected by user. Awaiting new instructions."⟩,
       ⟨chars "call_1", chars "Command skipped - user rejected previous command."⟩] ∧
    (execToolsAux c5Env c5Pending c5Pending 0 0 0 []).res = .rejectedEnd := by
  decide

/-- A model-round stream event that carries no tool call and only empty
text: a `text` event with `None` or `""` content, or a `done` event. -/
def emptyRoundEvent : StreamEvent → Bool
  | .text c => (c.getD []).isEmpty
  | .done _ => true
  | _ => false

theorem isCancelled_false {env : AgentEnv} (hnc : ∀ n, env.cancelAt n = false)
    (k : Nat) : isCancelled env k = false := by
  simp [isCancelled, hnc]

/-- Streaming a round of only empty-text and `done` events leaves the
accumulators untouched, preserves the history, and ends normally. -/
theorem processStream_empty (env : AgentEnv)
    (hnc : ∀ n, env.cancelAt n = false) :
    ∀ (evs : List StreamEvent), (∀ e ∈ evs, emptyRoundEvent e) →
    ∀ (sess : Session) (nc : Nat) (acc : StreamAcc),
      (processStream env evs sess nc acc).res = .ended acc ∧
      ((processStream env evs sess nc acc).sess).history = sess.history := by
  intro evs
  induction evs with
  | nil => intro _ sess nc acc; exact ⟨rfl, rfl⟩
  | cons e rest ih =>
    intro hevs sess nc acc
    have he := hevs e (List.mem_cons_self e rest)
    have hrest := fun e2 h2 => hevs e2 (List.mem_cons_of_mem e h2)
    cases e with
    | text c =>
      have hc : c.getD [] = [] := by
        simpa [emptyRoundEvent, List.isEmpty_iff] using he
      have hacc : (⟨acc.text ++ c.getD [], acc.toolCalls, acc.pending⟩ : StreamAcc) = acc := by
        cases acc
        simp [hc]
      simp only [processStream, isCancelled_false hnc, Bool.false_eq_true, if_false]
      rw [hacc]
      exact ih hrest sess (nc + 1) acc
    | toolCall otc =>
      cases otc with
      | none =>
        simp only [processStream, isCancelled_false hnc, Bool.false_eq_true, if_false]
        exact ih hrest sess (nc + 1) acc
      | some tc => simp [emptyRoundEvent] at he
    | done usage =>
      cases usage with
      | none =>
        simp only [processStream, isCancelled_false hnc, Bool.false_eq_true, if_false]
        exact ih hrest sess (nc + 1) acc
      | some u =>
        simp only [processStream, isCancelled_false hnc, Bool.false_eq_true, if_false]
        obtain ⟨h1, h2⟩ := ih hrest (sess.update_token_usage u.1 u.2) (nc + 1) acc
        exact ⟨h1, h2⟩
    | error c => simp [emptyRoundEvent] at he

/-- C9: when the first model round yields no tool calls and only empty text
content (and no error), with no cancellation and no auto-compaction, the
agent appends no assistant message - the history gains exactly the one user
message - and the turn still ends with a `turn_complete` event. -/
theorem run_turn_empty_round_spec (env : AgentEnv) (sess : Session)
    (userInput : List Char) (evs : List StreamEvent)
    (rest : List (List StreamEvent))
    (hnc : ∀ n, env.cancelAt n = false)
    (hac : should_auto_compact env sess = false)
    (hrounds : env.rounds = evs :: rest)
    (hevs : ∀ e ∈ evs, emptyRoundEvent e) :
    ((run_turn env sess userInput).sess).history
        = sess.history ++ [Msg.user userInput] ∧
    (run_turn env sess userInput).res = .finished ∧
    ∃ e, (run_turn env sess userInput).events.getLast? = some e ∧
      e.type = .turn_complete := by
  simp only [run_turn, hac, Bool.false_eq_true, if_false, hrounds]
  simp only [runRounds, isCancelled_false hnc, Bool.false_eq_true, if_false]
  obtain ⟨hres, hhist⟩ := processStream_empty env hnc evs hevs
    (sess.add_user_message userInput) 1 (⟨[], [], []⟩ : StreamAcc)
  rw [hres]
  dsimp only
  simp only [ne_eq, not_true_eq_false, if_false, List.isEmpty_nil, if_true]
  refine ⟨by rw [hhist]; rfl, trivial, ?_⟩
  exact ⟨_, List.getLast?_concat _, rfl⟩

/-- A concrete one-round environment with only empty text deltas and a
usage-bearing `done`. -/
def c9Env : AgentEnv :=
  ⟨[[StreamEvent.text (some []), StreamEvent.text none,
     StreamEvent.done (some (5, 7))]],
   fun _ => false, false, fun _ => false, fun _ => true,
   fun _ => ⟨[], true, []⟩, fun _ => ([], 0, 0), true, 100000⟩

def c9Session : Session := ⟨chars "sys", [Msg.user (chars "earlier")], 3, 4⟩

/-- Witness for C9: the theorem applied to the concrete empty-text round. -/
theorem run_turn_empty_round_spec_witness :
    ((run_turn c9Env c9Session (chars "next")).sess).history
        = c9Session.history ++ [Msg.user (chars "next")] ∧
    (run_turn c9Env c9Session (chars "next")).res = .finished ∧
    ∃ e, (run_turn c9Env c9Session (chars "next")).events.getLast? = some e ∧
      e.type = .turn_complete :=
  run_turn_empty_round_spec c9Env c9Session (chars "next")
    [StreamEvent.text (some []), StreamEvent.text none,
     StreamEvent.done (some (5, 7))] []
    (fun _ => rfl) (by decide) rfl (by decide)

end RoAgent
